import Mathlib

/-!
Verification of the batch audio transcoding pipeline of `opus2mp3.py`
(class `ConversionThread` and its helpers) against its natural-language
specification.

The embedding is executable: Python integers are `ℕ`/`ℤ`; Python floats
(IEEE-754 binary64) are modelled exactly as dyadic pairs `(mantissa, exponent)`
rounded to 53 significant bits with round-to-nearest, ties-to-even, covering
the normal finite range (overflow to infinity and subnormal underflow are out
of range for every value arising here); byte strings are `List ℕ`; the
side-effecting methods become pure functions from an explicit environment
(the outcomes of the external `ffmpeg` invocations and of the tag-container
reads) to a `(state, emitted events)` pair.
-/

/-! ## Fueled base-2 logarithm (kernel-computable) -/

/-- Fueled integer base-2 logarithm: `log2F f n` is `⌊log₂ n⌋` whenever
`n < 2 ^ f` and `0 < n`. Structural recursion on the fuel keeps it
kernel-reducible. -/
def log2F : ℕ → ℕ → ℕ
  | 0, _ => 0
  | f + 1, n => if n < 2 then 0 else log2F f (n / 2) + 1

/-- `⌊log₂ n⌋` for `0 < n` (and `0` at `0`). -/
def nlog2 (n : ℕ) : ℕ := log2F (n + 1) n

theorem log2F_spec : ∀ (f n : ℕ), 0 < n → n < 2 ^ f →
    2 ^ log2F f n ≤ n ∧ n < 2 ^ (log2F f n + 1) := by
  intro f
  induction f with
  | zero => intro n h1 h2; omega
  | succ f ih =>
    intro n h1 h2
    rw [log2F]
    by_cases hn : n < 2
    · simp only [hn, if_true]
      constructor
      · simpa using h1
      · simpa using hn
    · simp only [hn, if_false]
      have hpos : 0 < n / 2 := Nat.div_pos (by omega) (by omega)
      have hlt : n / 2 < 2 ^ f := by
        have h2' : n < 2 ^ f * 2 := by
          have : (2 : ℕ) ^ (f + 1) = 2 ^ f * 2 := by ring
          omega
        exact Nat.div_lt_of_lt_mul (by omega)
      obtain ⟨hl, hr⟩ := ih (n / 2) hpos hlt
      have hmod := Nat.div_add_mod n 2
      constructor
      · have : 2 ^ (log2F f (n / 2) + 1) = 2 * 2 ^ log2F f (n / 2) := by ring
        omega
      · have : 2 ^ (log2F f (n / 2) + 1 + 1) = 2 * 2 ^ (log2F f (n / 2) + 1) := by
          ring
        omega

theorem nlog2_spec (n : ℕ) (h : 0 < n) :
    2 ^ nlog2 n ≤ n ∧ n < 2 ^ (nlog2 n + 1) :=
  log2F_spec (n + 1) n h (Nat.lt_of_lt_of_le (Nat.lt_two_pow n)
    (Nat.pow_le_pow_right (by omega) (by omega)))

/-! ## IEEE-754 binary64 rounding, as integer computations

A nonnegative double is a pair `(m, e) : ℕ × ℤ` of value `m * 2 ^ e`.
`flPos a b` rounds the positive rational `a / b` to the nearest double
(53-bit mantissa, ties to even). -/

/-- `geP2 a b e` decides `2 ^ e ≤ a / b` by cross-multiplication. -/
def geP2 (a b : ℕ) (e : ℤ) : Bool := b * 2 ^ e.toNat ≤ a * 2 ^ (-e).toNat

/-- The integer `L` with `2 ^ L ≤ a / b < 2 ^ (L + 1)`, for `a, b ≥ 1`. -/
def qlog2F (a b : ℕ) : ℤ :=
  let e1 : ℤ := (nlog2 a : ℤ) - (nlog2 b : ℤ)
  if geP2 a b e1 then e1 else e1 - 1

/-- The rounded 53-bit mantissa of the positive rational `a / b`: nearest
integer to `(a / b) * 2 ^ (52 - qlog2F a b)`, ties to even, computed with
integer division. -/
def flMant (a b : ℕ) : ℕ :=
  let A := a * 2 ^ (-(qlog2F a b - 52)).toNat
  let B := b * 2 ^ (qlog2F a b - 52).toNat
  if B < 2 * (A % B) then A / B + 1
  else if 2 * (A % B) < B then A / B
  else if (A / B) % 2 = 0 then A / B else A / B + 1

/-- Round the positive rational `a / b` to the nearest IEEE binary64 value,
ties to even, returned as a dyadic pair `(mantissa, exponent)` with the
mantissa in `[2 ^ 52, 2 ^ 53]`. -/
def flPos (a b : ℕ) : ℕ × ℤ := (flMant a b, qlog2F a b - 52)

/-- Rational value of a nonnegative dyadic pair. -/
def flVal (p : ℕ × ℤ) : ℚ := (p.1 : ℚ) * 2 ^ p.2

/-- Round-to-nearest integer, ties to even, at the rational level
(specification counterpart of the mantissa computation in `flPos`). -/
def rneQ (x : ℚ) : ℤ :=
  if 1 / 2 < x - ⌊x⌋ then ⌊x⌋ + 1
  else if x - ⌊x⌋ < 1 / 2 then ⌊x⌋
  else if ⌊x⌋ % 2 = 0 then ⌊x⌋ else ⌊x⌋ + 1

theorem rneQ_ge_floor (x : ℚ) : ⌊x⌋ ≤ rneQ x := by
  unfold rneQ; split_ifs <;> omega

theorem rneQ_le_floor_add_one (x : ℚ) : rneQ x ≤ ⌊x⌋ + 1 := by
  unfold rneQ; split_ifs <;> omega

theorem rneQ_mono {x y : ℚ} (h : x ≤ y) : rneQ x ≤ rneQ y := by
  have hf : ⌊x⌋ ≤ ⌊y⌋ := Int.floor_le_floor h
  rcases lt_or_eq_of_le hf with hlt | heq
  · calc rneQ x ≤ ⌊x⌋ + 1 := rneQ_le_floor_add_one x
    _ ≤ ⌊y⌋ := by omega
    _ ≤ rneQ y := rneQ_ge_floor y
  · unfold rneQ
    rw [← heq]
    have hxy : x - ⌊x⌋ ≤ y - ⌊x⌋ := by linarith
    split_ifs <;> first | omega | linarith

theorem geP2_iff (a b : ℕ) (hb : 0 < b) (e : ℤ) :
    geP2 a b e = true ↔ (2 : ℚ) ^ e ≤ (a : ℚ) / b := by
  have hbq : (0 : ℚ) < (b : ℚ) := by exact_mod_cast hb
  simp only [geP2, decide_eq_true_eq]
  rw [← Nat.cast_le (α := ℚ), le_div_iff₀ hbq]
  push_cast
  rcases le_or_lt 0 e with he | he
  · have h1 : (-e).toNat = 0 := by omega
    have h2 : (2 : ℚ) ^ e = 2 ^ e.toNat := by
      rw [← zpow_natCast (2 : ℚ) e.toNat, Int.toNat_of_nonneg he]
    rw [h1, h2]
    simp only [pow_zero, mul_one]
    constructor <;> intro h <;> linarith
  · have h1 : e.toNat = 0 := by omega
    have h2 : (2 : ℚ) ^ e * 2 ^ (-e).toNat = 1 := by
      rw [← zpow_natCast (2 : ℚ) (-e).toNat,
        Int.toNat_of_nonneg (by omega : (0 : ℤ) ≤ -e), ← zpow_add₀ (two_ne_zero)]
      simp
    have hp : (0 : ℚ) < 2 ^ (-e).toNat := by positivity
    rw [h1]
    simp only [pow_zero, mul_one]
    constructor
    · intro h
      have h3 := mul_le_mul_of_nonneg_right h
        (le_of_lt (zpow_pos (by norm_num : (0 : ℚ) < 2) e))
      calc (2 : ℚ) ^ e * b = b * 2 ^ e := by ring
        _ ≤ a * 2 ^ (-e).toNat * 2 ^ e := h3
        _ = a * (2 ^ e * 2 ^ (-e).toNat) := by ring
        _ = a := by rw [h2]; ring
    · intro h
      have h3 := mul_le_mul_of_nonneg_right h (le_of_lt hp)
      calc (b : ℚ) = b * (2 ^ e * 2 ^ (-e).toNat) := by rw [h2]; ring
        _ = 2 ^ e * b * 2 ^ (-e).toNat := by ring
        _ ≤ a * 2 ^ (-e).toNat := h3

theorem qlog2F_spec (a b : ℕ) (ha : 0 < a) (hb : 0 < b) :
    (2 : ℚ) ^ qlog2F a b ≤ (a : ℚ) / b ∧ (a : ℚ) / b < 2 ^ (qlog2F a b + 1) := by
  have haq : (0 : ℚ) < (a : ℚ) := by exact_mod_cast ha
  have hbq : (0 : ℚ) < (b : ℚ) := by exact_mod_cast hb
  obtain ⟨ha1, ha2⟩ := nlog2_spec a ha
  obtain ⟨hb1, hb2⟩ := nlog2_spec b hb
  set La := nlog2 a with hLa
  set Lb := nlog2 b with hLb
  have ha1q : (2 : ℚ) ^ (La : ℤ) ≤ (a : ℚ) := by
    rw [zpow_natCast]; exact_mod_cast ha1
  have ha2q : (a : ℚ) < 2 ^ ((La : ℤ) + 1) := by
    have : ((La : ℤ) + 1) = ((La + 1 : ℕ) : ℤ) := by push_cast; ring
    rw [this, zpow_natCast]; exact_mod_cast ha2
  have hb1q : (2 : ℚ) ^ (Lb : ℤ) ≤ (b : ℚ) := by
    rw [zpow_natCast]; exact_mod_cast hb1
  have hb2q : (b : ℚ) < 2 ^ ((Lb : ℤ) + 1) := by
    have : ((Lb : ℤ) + 1) = ((Lb + 1 : ℕ) : ℤ) := by push_cast; ring
    rw [this, zpow_natCast]; exact_mod_cast hb2
  have hupper : (a : ℚ) / b < 2 ^ (((La : ℤ) - Lb) + 1) := by
    have h1 : (a : ℚ) / b ≤ (a : ℚ) / 2 ^ (Lb : ℤ) := by
      apply div_le_div_of_nonneg_left (le_of_lt haq) (by positivity) hb1q
    have h2 : (a : ℚ) / 2 ^ (Lb : ℤ) < 2 ^ ((La : ℤ) + 1) / 2 ^ (Lb : ℤ) := by
      apply div_lt_div_of_pos_right ha2q (by positivity)
    calc (a : ℚ) / b ≤ (a : ℚ) / 2 ^ (Lb : ℤ) := h1
      _ < 2 ^ ((La : ℤ) + 1) / 2 ^ (Lb : ℤ) := h2
      _ = 2 ^ (((La : ℤ) - Lb) + 1) := by
          rw [← zpow_sub₀ (two_ne_zero)]; ring_nf
  have hlower : (2 : ℚ) ^ (((La : ℤ) - Lb) - 1) < (a : ℚ) / b := by
    have h1 : (2 : ℚ) ^ (La : ℤ) / 2 ^ ((Lb : ℤ) + 1) ≤ (a : ℚ) / 2 ^ ((Lb : ℤ) + 1) := by
      apply div_le_div_of_nonneg_right ha1q (by positivity)
    have h2 : (a : ℚ) / 2 ^ ((Lb : ℤ) + 1) < (a : ℚ) / b := by
      apply div_lt_div_of_pos_left haq hbq hb2q
    calc (2 : ℚ) ^ (((La : ℤ) - Lb) - 1) = 2 ^ (La : ℤ) / 2 ^ ((Lb : ℤ) + 1) := by
          rw [← zpow_sub₀ (two_ne_zero)]; ring_nf
      _ ≤ (a : ℚ) / 2 ^ ((Lb : ℤ) + 1) := h1
      _ < (a : ℚ) / b := h2
  unfold qlog2F
  by_cases hge : geP2 a b ((La : ℤ) - Lb)
  · simp only [hLa, hLb] at hge ⊢
    rw [if_pos hge]
    exact ⟨(geP2_iff a b hb _).mp hge, hupper⟩
  · simp only [hLa, hLb] at hge ⊢
    rw [if_neg hge]
    have hnot : ¬ ((2 : ℚ) ^ ((La : ℤ) - Lb) ≤ (a : ℚ) / b) := fun hc =>
      hge ((geP2_iff a b hb _).mpr hc)
    push_neg at hnot
    constructor
    · exact le_of_lt hlower
    · have : (La : ℤ) - Lb - 1 + 1 = (La : ℤ) - Lb := by ring
      rw [this]
      exact hnot

/-- The scaled value whose nearest integer is the mantissa computed by
`flMant`. -/
def flScaled (a b : ℕ) : ℚ := (a : ℚ) / b * 2 ^ ((52 : ℤ) - qlog2F a b)

theorem cast_frac_eq (a b : ℕ) (e : ℤ) :
    ((a * 2 ^ (-e).toNat : ℕ) : ℚ) / ((b * 2 ^ e.toNat : ℕ) : ℚ) =
      (a : ℚ) / b * 2 ^ (-e) := by
  push_cast
  rcases le_or_lt 0 e with h | h
  · have h1 : (-e).toNat = 0 := by omega
    have h2 : ((2 : ℚ) ^ e.toNat) = 2 ^ e := by
      rw [← zpow_natCast (2 : ℚ) e.toNat, Int.toNat_of_nonneg h]
    rw [h1, pow_zero, mul_one, h2, zpow_neg, ← div_div, div_eq_mul_inv]
  · have h1 : e.toNat = 0 := by omega
    have h2 : ((2 : ℚ) ^ (-e).toNat) = 2 ^ (-e) := by
      rw [← zpow_natCast (2 : ℚ) (-e).toNat,
        Int.toNat_of_nonneg (by omega : (0 : ℤ) ≤ -e)]
    rw [h1, pow_zero, mul_one, h2, mul_div_right_comm]

theorem two_zpow_52 : (2 : ℚ) ^ (52 : ℤ) = ((2 ^ 52 : ℤ) : ℚ) := by norm_num

theorem two_zpow_53 : (2 : ℚ) ^ (53 : ℤ) = ((2 ^ 53 : ℤ) : ℚ) := by norm_num

theorem flScaled_lb (a b : ℕ) (ha : 0 < a) (hb : 0 < b) :
    (2 : ℚ) ^ (52 : ℤ) ≤ flScaled a b := by
  obtain ⟨h1, _⟩ := qlog2F_spec a b ha hb
  unfold flScaled
  have hp : (0 : ℚ) < 2 ^ ((52 : ℤ) - qlog2F a b) := by positivity
  calc (2 : ℚ) ^ (52 : ℤ) = 2 ^ qlog2F a b * 2 ^ ((52 : ℤ) - qlog2F a b) := by
        rw [← zpow_add₀ (two_ne_zero)]; ring_nf
    _ ≤ (a : ℚ) / b * 2 ^ ((52 : ℤ) - qlog2F a b) :=
        mul_le_mul_of_nonneg_right h1 (le_of_lt hp)

theorem flScaled_ub (a b : ℕ) (ha : 0 < a) (hb : 0 < b) :
    flScaled a b < 2 ^ (53 : ℤ) := by
  obtain ⟨_, h2⟩ := qlog2F_spec a b ha hb
  unfold flScaled
  have hp : (0 : ℚ) < 2 ^ ((52 : ℤ) - qlog2F a b) := by positivity
  calc (a : ℚ) / b * 2 ^ ((52 : ℤ) - qlog2F a b)
      < 2 ^ (qlog2F a b + 1) * 2 ^ ((52 : ℤ) - qlog2F a b) :=
        mul_lt_mul_of_pos_right h2 hp
    _ = 2 ^ (53 : ℤ) := by rw [← zpow_add₀ (two_ne_zero)]; ring_nf

theorem flMant_eq_rneQ (a b : ℕ) (hb : 0 < b) :
    ((flMant a b : ℕ) : ℤ) = rneQ (flScaled a b) := by
  set e : ℤ := qlog2F a b - 52 with he
  set A := a * 2 ^ (-e).toNat with hA
  set B := b * 2 ^ e.toNat with hBdef
  have hB : 0 < B := Nat.mul_pos hb (Nat.pow_pos (by norm_num))
  have hBq : (0 : ℚ) < (B : ℚ) := by exact_mod_cast hB
  have hxAB : (A : ℚ) / (B : ℚ) = flScaled a b := by
    rw [hA, hBdef, cast_frac_eq a b e]
    unfold flScaled
    rw [show -e = (52 : ℤ) - qlog2F a b from by omega]
  have hq : ⌊flScaled a b⌋ = ((A / B : ℕ) : ℤ) := by
    rw [← hxAB]; exact Rat.floor_natCast_div_natCast A B
  have hqQ : ((⌊flScaled a b⌋ : ℤ) : ℚ) = ((A / B : ℕ) : ℚ) := by
    rw [hq]; norm_cast
  have hfrac : flScaled a b - (⌊flScaled a b⌋ : ℚ) = ((A % B : ℕ) : ℚ) / B := by
    rw [hqQ, ← hxAB, eq_div_iff (ne_of_gt hBq), sub_mul,
      div_mul_cancel₀ _ (ne_of_gt hBq)]
    have hmod : B * (A / B) + A % B = A := Nat.div_add_mod A B
    have hcast : (A : ℚ) = (B : ℚ) * ((A / B : ℕ) : ℚ) + ((A % B : ℕ) : ℚ) := by
      exact_mod_cast hmod.symm
    linarith
  have hc1 : (1 / 2 < flScaled a b - (⌊flScaled a b⌋ : ℚ)) ↔ B < 2 * (A % B) := by
    rw [hfrac, lt_div_iff₀ hBq]
    constructor
    · intro h
      have h2 : (B : ℚ) < 2 * ((A % B : ℕ) : ℚ) := by linarith
      exact_mod_cast h2
    · intro h
      have h2 : (B : ℚ) < 2 * ((A % B : ℕ) : ℚ) := by exact_mod_cast h
      linarith
  have hc2 : (flScaled a b - (⌊flScaled a b⌋ : ℚ) < 1 / 2) ↔ 2 * (A % B) < B := by
    rw [hfrac, div_lt_iff₀ hBq]
    constructor
    · intro h
      have h2 : 2 * ((A % B : ℕ) : ℚ) < (B : ℚ) := by linarith
      exact_mod_cast h2
    · intro h
      have h2 : 2 * ((A % B : ℕ) : ℚ) < (B : ℚ) := by exact_mod_cast h
      linarith
  have hc3 : (⌊flScaled a b⌋ % 2 = 0) ↔ (A / B) % 2 = 0 := by rw [hq]; omega
  have hmant : flMant a b =
      (if B < 2 * (A % B) then A / B + 1
       else if 2 * (A % B) < B then A / B
       else if (A / B) % 2 = 0 then A / B else A / B + 1) := by
    rw [flMant, ← he, ← hA, ← hBdef]
  rw [hmant]
  unfold rneQ
  by_cases h1 : B < 2 * (A % B)
  · rw [if_pos h1, if_pos (hc1.mpr h1), hq]; push_cast; ring
  · rw [if_neg h1, if_neg (fun hh => h1 (hc1.mp hh))]
    by_cases h2 : 2 * (A % B) < B
    · rw [if_pos h2, if_pos (hc2.mpr h2), hq]
    · rw [if_neg h2, if_neg (fun hh => h2 (hc2.mp hh))]
      by_cases h3 : (A / B) % 2 = 0
      · rw [if_pos h3, if_pos (hc3.mpr h3), hq]
      · rw [if_neg h3, if_neg (fun hh => h3 (hc3.mp hh)), hq]; push_cast; ring

theorem flPos_val (a b : ℕ) (hb : 0 < b) :
    flVal (flPos a b) = (rneQ (flScaled a b) : ℚ) * 2 ^ (qlog2F a b - 52) := by
  unfold flVal flPos
  congr 1
  exact_mod_cast flMant_eq_rneQ a b hb

theorem flVal_nonneg (p : ℕ × ℤ) : 0 ≤ flVal p := by
  unfold flVal; positivity

theorem flPos_mono {a b c d : ℕ} (ha : 0 < a) (hb : 0 < b) (hc : 0 < c)
    (hd : 0 < d) (h : (a : ℚ) / b ≤ (c : ℚ) / d) :
    flVal (flPos a b) ≤ flVal (flPos c d) := by
  obtain ⟨ha1, ha2⟩ := qlog2F_spec a b ha hb
  obtain ⟨hc1, hc2⟩ := qlog2F_spec c d hc hd
  set L1 := qlog2F a b with hL1
  set L2 := qlog2F c d with hL2
  have hL : L1 ≤ L2 := by
    by_contra hcon
    push_neg at hcon
    have hstep : (2 : ℚ) ^ (L2 + 1) ≤ 2 ^ L1 :=
      zpow_le_zpow_right₀ one_le_two (by omega)
    linarith
  rw [flPos_val a b hb, flPos_val c d hd, ← hL1, ← hL2]
  rcases eq_or_lt_of_le hL with heq | hlt
  · rw [← heq]
    apply mul_le_mul_of_nonneg_right _ (le_of_lt (by positivity))
    have hmono : flScaled a b ≤ flScaled c d := by
      unfold flScaled
      rw [← hL1, ← hL2, ← heq]
      exact mul_le_mul_of_nonneg_right h (le_of_lt (by positivity))
    exact_mod_cast rneQ_mono hmono
  · have hub : (rneQ (flScaled a b) : ℚ) * 2 ^ (L1 - 52) ≤ 2 ^ (L1 + 1) := by
      have h1 : rneQ (flScaled a b) ≤ 2 ^ 53 := by
        have hfl : ⌊flScaled a b⌋ < 2 ^ 53 := by
          rw [Int.floor_lt]
          calc flScaled a b < 2 ^ (53 : ℤ) := flScaled_ub a b ha hb
            _ = ((2 ^ 53 : ℤ) : ℚ) := two_zpow_53
        have := rneQ_le_floor_add_one (flScaled a b)
        omega
      calc (rneQ (flScaled a b) : ℚ) * 2 ^ (L1 - 52)
          ≤ (2 : ℚ) ^ (53 : ℤ) * 2 ^ (L1 - 52) := by
            apply mul_le_mul_of_nonneg_right _ (le_of_lt (by positivity))
            rw [two_zpow_53]
            exact_mod_cast h1
        _ = 2 ^ (L1 + 1) := by rw [← zpow_add₀ (two_ne_zero)]; ring_nf
    have hlb : (2 : ℚ) ^ L2 ≤ (rneQ (flScaled c d) : ℚ) * 2 ^ (L2 - 52) := by
      have h1 : (2 : ℤ) ^ 52 ≤ rneQ (flScaled c d) := by
        have hfl : (2 : ℤ) ^ 52 ≤ ⌊flScaled c d⌋ := by
          rw [Int.le_floor]
          calc ((2 ^ 52 : ℤ) : ℚ) = 2 ^ (52 : ℤ) := two_zpow_52.symm
            _ ≤ flScaled c d := flScaled_lb c d hc hd
        have := rneQ_ge_floor (flScaled c d)
        omega
      calc (2 : ℚ) ^ L2 = 2 ^ (52 : ℤ) * 2 ^ (L2 - 52) := by
            rw [← zpow_add₀ (two_ne_zero)]; ring_nf
        _ ≤ (rneQ (flScaled c d) : ℚ) * 2 ^ (L2 - 52) := by
            apply mul_le_mul_of_nonneg_right _ (le_of_lt (by positivity))
            rw [two_zpow_52]
            exact_mod_cast h1
    have hmid : (2 : ℚ) ^ (L1 + 1) ≤ 2 ^ L2 :=
      zpow_le_zpow_right₀ one_le_two (by omega)
    linarith

/-! ## Python float operations used by the progress computation

`completed_files / len(files)` is CPython true division of two ints: the
correctly rounded binary64 value of the exact quotient. The further `* 100`
is a correctly rounded binary64 product, and `int(...)` truncates toward
zero. All values here are nonnegative. -/

/-- Python `c / n` on nonnegative ints (true division, correctly rounded
binary64). -/
def pydivD (c n : ℕ) : ℕ × ℤ := if c = 0 then (0, 0) else flPos c n

/-- Python `x * 100` on a nonnegative binary64 (correctly rounded). -/
def pymul100D (p : ℕ × ℤ) : ℕ × ℤ :=
  if p.1 = 0 then (0, 0) else flPos (p.1 * 100 * 2 ^ p.2.toNat) (2 ^ (-p.2).toNat)

/-- Python `int(x)` on a nonnegative binary64 (truncation toward zero). -/
def pytruncD (p : ℕ × ℤ) : ℕ :=
  if 0 ≤ p.2 then p.1 * 2 ^ p.2.toNat else p.1 / 2 ^ (-p.2).toNat

/-- The progress value emitted by `_handle_conversion_result`:
`int((completed_files / total) * 100)` in Python float arithmetic. -/
def pyProgress (completed total : ℕ) : ℕ := pytruncD (pymul100D (pydivD completed total))

theorem pymul100D_frac_val (p : ℕ × ℤ) :
    ((p.1 * 100 * 2 ^ p.2.toNat : ℕ) : ℚ) / ((2 ^ (-p.2).toNat : ℕ) : ℚ) =
      100 * flVal p := by
  unfold flVal
  have key : ((2 : ℚ) ^ p.2.toNat) / ((2 : ℚ) ^ (-p.2).toNat) = 2 ^ p.2 := by
    rcases le_or_lt 0 p.2 with h | h
    · have h1 : (-p.2).toNat = 0 := by omega
      rw [h1, pow_zero, div_one, ← zpow_natCast (2 : ℚ) p.2.toNat,
        Int.toNat_of_nonneg h]
    · have h1 : p.2.toNat = 0 := by omega
      rw [h1, pow_zero, ← zpow_natCast (2 : ℚ) (-p.2).toNat,
        Int.toNat_of_nonneg (by omega : (0 : ℤ) ≤ -p.2), one_div, ← zpow_neg]
      norm_num
  push_cast
  rw [mul_div_assoc, key]
  ring

theorem pytruncD_eq_floor (p : ℕ × ℤ) : ((pytruncD p : ℕ) : ℤ) = ⌊flVal p⌋ := by
  unfold pytruncD flVal
  rcases le_or_lt 0 p.2 with h | h
  · rw [if_pos h]
    have h2 : ((2 : ℚ) ^ p.2.toNat) = 2 ^ p.2 := by
      rw [← zpow_natCast (2 : ℚ) p.2.toNat, Int.toNat_of_nonneg h]
    rw [← h2]
    have : (p.1 : ℚ) * 2 ^ p.2.toNat = ((p.1 * 2 ^ p.2.toNat : ℕ) : ℚ) := by
      push_cast; ring
    rw [this, Int.floor_natCast]
  · rw [if_neg (by omega)]
    have h2 : ((2 : ℚ) ^ (-p.2).toNat) = 2 ^ (-p.2) := by
      rw [← zpow_natCast (2 : ℚ) (-p.2).toNat,
        Int.toNat_of_nonneg (by omega : (0 : ℤ) ≤ -p.2)]
    have hval : (p.1 : ℚ) * 2 ^ p.2 = (p.1 : ℚ) / ((2 ^ (-p.2).toNat : ℕ) : ℚ) := by
      push_cast
      rw [h2, div_eq_mul_inv, ← zpow_neg]
      simp
    rw [hval, Rat.floor_natCast_div_natCast]
    push_cast
    ring

theorem pydivD_mono {c1 c2 n : ℕ} (hn : 0 < n) (h : c1 ≤ c2) :
    flVal (pydivD c1 n) ≤ flVal (pydivD c2 n) := by
  unfold pydivD
  by_cases h1 : c1 = 0
  · rw [if_pos h1]
    by_cases h2 : c2 = 0
    · rw [if_pos h2]
    · rw [if_neg h2]
      calc flVal (0, 0) = 0 := by unfold flVal; simp
        _ ≤ flVal (flPos c2 n) := flVal_nonneg _
  · rw [if_neg h1, if_neg (by omega)]
    apply flPos_mono (by omega) hn (by omega) hn
    apply div_le_div_of_nonneg_right _ (by positivity)
    exact_mod_cast h

theorem pymul100D_mono {p q : ℕ × ℤ} (h : flVal p ≤ flVal q) :
    flVal (pymul100D p) ≤ flVal (pymul100D q) := by
  unfold pymul100D
  by_cases h1 : p.1 = 0
  · rw [if_pos h1]
    by_cases h2 : q.1 = 0
    · rw [if_pos h2]
    · rw [if_neg h2]
      calc flVal (0, 0) = 0 := by unfold flVal; simp
        _ ≤ _ := flVal_nonneg _
  · rw [if_neg h1]
    have hp : 0 < flVal p := by
      unfold flVal
      have : (0 : ℚ) < (p.1 : ℚ) := by exact_mod_cast Nat.pos_of_ne_zero h1
      positivity
    have h2 : q.1 ≠ 0 := by
      intro hq0
      have : flVal q = 0 := by unfold flVal; rw [hq0]; simp
      rw [this] at h
      linarith
    rw [if_neg h2]
    apply flPos_mono
      (Nat.mul_pos (Nat.mul_pos (Nat.pos_of_ne_zero h1) (by omega)) (Nat.pow_pos (by omega)))
      (Nat.pow_pos (by omega))
      (Nat.mul_pos (Nat.mul_pos (Nat.pos_of_ne_zero h2) (by omega)) (Nat.pow_pos (by omega)))
      (Nat.pow_pos (by omega))
    rw [pymul100D_frac_val p, pymul100D_frac_val q]
    linarith

theorem pytruncD_mono {p q : ℕ × ℤ} (h : flVal p ≤ flVal q) :
    pytruncD p ≤ pytruncD q := by
  have h2 : ((pytruncD p : ℕ) : ℤ) ≤ ((pytruncD q : ℕ) : ℤ) := by
    rw [pytruncD_eq_floor, pytruncD_eq_floor]
    exact Int.floor_le_floor h
  exact_mod_cast h2

theorem pyProgress_mono {c1 c2 n : ℕ} (hn : 0 < n) (h : c1 ≤ c2) :
    pyProgress c1 n ≤ pyProgress c2 n :=
  pytruncD_mono (pymul100D_mono (pydivD_mono hn h))

theorem flPos_self (n : ℕ) (hn : 0 < n) : flPos n n = (2 ^ 52, -52) := by
  have hq : qlog2F n n = 0 := by
    simp only [qlog2F, sub_self]
    have hg : geP2 n n 0 = true := by simp [geP2]
    simp [hg]
  unfold flPos flMant
  rw [hq]
  have he1 : ((0 : ℤ) - 52).toNat = 0 := by decide
  have he2 : (-((0 : ℤ) - 52)).toNat = 52 := by decide
  rw [he1, he2]
  simp only [pow_zero, mul_one]
  have hdiv : n * 2 ^ 52 / n = 2 ^ 52 := by
    rw [Nat.mul_div_cancel_left _ hn]
  have hmod : n * 2 ^ 52 % n = 0 := Nat.mul_mod_right n _
  rw [hdiv, hmod]
  rw [if_neg (by omega), if_pos (by omega)]
  norm_num

theorem pyProgress_self (n : ℕ) (hn : 0 < n) : pyProgress n n = 100 := by
  unfold pyProgress pydivD
  rw [if_neg (by omega), flPos_self n hn]
  decide

theorem pyProgress_le_100 {c n : ℕ} (hn : 0 < n) (h : c ≤ n) :
    pyProgress c n ≤ 100 := by
  have h1 : flVal (pydivD c n) ≤ flVal (pydivD n n) := pydivD_mono hn h
  rw [show pydivD n n = (2 ^ 52, -52) from by
    unfold pydivD; rw [if_neg (by omega), flPos_self n hn]] at h1
  calc pyProgress c n ≤ pytruncD (pymul100D (2 ^ 52, -52)) :=
        pytruncD_mono (pymul100D_mono h1)
    _ = 100 := by decide

theorem pyProgress_lt_100 {c n : ℕ} (hcn : c < n) (hn53 : n ≤ 2 ^ 53) :
    pyProgress c n ≤ 99 := by
  have hn : 0 < n := by omega
  have hle : flVal (pydivD c n) ≤ flVal (flPos (2 ^ 53 - 1) (2 ^ 53)) := by
    unfold pydivD
    by_cases hc0 : c = 0
    · rw [if_pos hc0]
      calc flVal (0, 0) = 0 := by unfold flVal; simp
        _ ≤ _ := flVal_nonneg _
    · rw [if_neg hc0]
      apply flPos_mono (by omega) hn (by norm_num) (by norm_num)
      have hnq : (0 : ℚ) < (n : ℚ) := by exact_mod_cast hn
      have hdq : (0 : ℚ) < ((2 ^ 53 : ℕ) : ℚ) := by positivity
      rw [div_le_div_iff hnq hdq]
      have hc1 : ((2 ^ 53 - 1 : ℕ) : ℚ) = 2 ^ 53 - 1 := by norm_num
      have hc2 : ((2 ^ 53 : ℕ) : ℚ) = 2 ^ 53 := by norm_num
      rw [hc1, hc2]
      have hcq : (c : ℚ) ≤ (n : ℚ) - 1 := by
        have : (c : ℚ) + 1 ≤ (n : ℚ) := by exact_mod_cast hcn
        linarith
      have hnq53 : (n : ℚ) ≤ 2 ^ 53 := by exact_mod_cast hn53
      calc (c : ℚ) * 2 ^ 53 ≤ ((n : ℚ) - 1) * 2 ^ 53 :=
            mul_le_mul_of_nonneg_right hcq (by positivity)
        _ = (n : ℚ) * 2 ^ 53 - 2 ^ 53 := by ring
        _ ≤ (n : ℚ) * 2 ^ 53 - n := by linarith
        _ = (2 ^ 53 - 1) * n := by ring
  rw [show flPos (2 ^ 53 - 1) (2 ^ 53) = (2 ^ 53 - 1, -53) from by decide] at hle
  calc pyProgress c n ≤ pytruncD (pymul100D (2 ^ 53 - 1, -53)) :=
        pytruncD_mono (pymul100D_mono hle)
    _ = 99 := by decide

/-! ## Log events and batch state

`LogType` mirrors the `LogType` enum of the source (colors dropped: they are
purely presentational data attached to each severity). `Event` is one element
of the ordered stream a `ConversionThread` emits through its `output` and
`progress` Qt signals. -/

inductive LogType
  | overwriting
  | converting
  | finished
  | error
  | warning
  | info
deriving DecidableEq

inductive Event
  | log (t : LogType) (msg : String)
  | progress (p : ℕ)
deriving DecidableEq

/-- The progress values contained in an event stream, in emission order. -/
def progressValues (evs : List Event) : List ℕ :=
  evs.filterMap (fun e => match e with | .progress p => some p | _ => none)

/-- Mutable state of a `ConversionThread` shared by its tasks:
`self.running` and `self.completed_files`. -/
structure BatchState where
  running : Bool
  completed_files : ℕ
deriving DecidableEq

/-- State set up by `ConversionThread.__init__`: `running = True`,
`completed_files = 0`. -/
def conversionThreadInit : BatchState := { running := true, completed_files := 0 }

/-- Python `str.strip()` restricted to ASCII whitespace. -/
def pyStrip (s : String) : String :=
  let ws := fun c : Char => c = ' ' ∨ c = '\t' ∨ c = '\n' ∨ c = '\r' ∨
    c = (Char.ofNat 11) ∨ c = (Char.ofNat 12)
  String.mk (((s.toList.dropWhile ws).reverse.dropWhile ws).reverse)

/-- `_handle_conversion_result`: on exit code 0 emit a Finished event,
increment the counter inside the lock and emit the recomputed overall
progress; otherwise emit two Error events and leave the counter unchanged.
Returns the new `completed_files` and the emitted events. -/
def handle_conversion_result (returncode : ℤ) (output opus_file : String)
    (total : ℕ) (completed_files : ℕ) : ℕ × List Event :=
  if returncode = 0 then
    (completed_files + 1,
      [.log .finished (opus_file ++ "."),
       .progress (pyProgress (completed_files + 1) total)])
  else
    (completed_files,
      [.log .error ("Converting " ++ opus_file ++ ". ffmpeg returned non-zero exit code."),
       .log .error (pyStrip output)])

/-- One `(returncode, output, opus_file)` triple per finished encode pass,
in the order the per-file critical sections of `_handle_conversion_result`
execute. -/
def run_results (total : ℕ) : List (ℤ × String × String) → ℕ → ℕ × List Event
  | [], c => (c, [])
  | (rc, out, name) :: rest, c =>
    let r1 := handle_conversion_result rc out name total c
    let r2 := run_results total rest r1.1
    (r2.1, r1.2 ++ r2.2)

/-- Number of Success outcomes in a result list. -/
def countSucc (rs : List (ℤ × String × String)) : ℕ :=
  (rs.filter (fun r => r.1 = 0)).length

theorem progressValues_append (l1 l2 : List Event) :
    progressValues (l1 ++ l2) = progressValues l1 ++ progressValues l2 := by
  unfold progressValues
  rw [List.filterMap_append]

theorem run_results_spec (total : ℕ) :
    ∀ (rs : List (ℤ × String × String)) (c : ℕ),
      (run_results total rs c).1 = c + countSucc rs ∧
      progressValues (run_results total rs c).2 =
        (List.range' (c + 1) (countSucc rs)).map (fun i => pyProgress i total) := by
  intro rs
  induction rs with
  | nil => intro c; simp [run_results, countSucc, progressValues]
  | cons hd tl ih =>
    intro c
    obtain ⟨rc, out, name⟩ := hd
    rw [run_results]
    by_cases hrc : rc = 0
    · have hh : handle_conversion_result rc out name total c =
          (c + 1, [.log .finished (name ++ "."),
            .progress (pyProgress (c + 1) total)]) := by
        unfold handle_conversion_result
        rw [if_pos hrc]
      have hcount : countSucc ((rc, out, name) :: tl) = countSucc tl + 1 := by
        unfold countSucc
        simp [List.filter, hrc]
        try omega
      obtain ⟨ih1, ih2⟩ := ih (c + 1)
      constructor
      · simp only [hh, ih1, hcount]
        omega
      · simp only [hh, hcount]
        rw [progressValues_append]
        rw [List.range'_succ]
        simp only [List.map_cons]
        rw [ih2]
        rfl
    · have hh : handle_conversion_result rc out name total c =
          (c, [.log .error ("Converting " ++ name ++ ". ffmpeg returned non-zero exit code."),
            .log .error (pyStrip out)]) := by
        unfold handle_conversion_result
        rw [if_neg hrc]
      have hcount : countSucc ((rc, out, name) :: tl) = countSucc tl := by
        unfold countSucc
        simp [List.filter, hrc]
      obtain ⟨ih1, ih2⟩ := ih c
      constructor
      · simp only [hh, ih1, hcount]
      · simp only [hh, hcount]
        rw [progressValues_append, ih2]
        rfl

theorem countSucc_le_length (rs : List (ℤ × String × String)) :
    countSucc rs ≤ rs.length := by
  unfold countSucc
  exact List.length_filter_le _ _

theorem chain_le_map_range' (f : ℕ → ℕ) (hf : ∀ i, f i ≤ f (i + 1)) :
    ∀ (k s : ℕ), List.Chain' (· ≤ ·) ((List.range' s k).map f) := by
  intro k
  induction k with
  | zero => intro s; simp
  | succ k ih =>
    intro s
    rw [List.range'_succ, List.map_cons]
    cases k with
    | zero => simp
    | succ k2 =>
      rw [List.range'_succ, List.map_cons]
      apply List.Chain'.cons
      · exact hf s
      · rw [← List.map_cons, ← List.range'_succ]
        exact ih (s + 1)

/-! ## String primitives (Python semantics) -/

/-- The character `\x7b` (opening curly brace). -/
def lbrace : Char := Char.ofNat 123

/-- The character `\x7d` (closing curly brace). -/
def rbrace : Char := Char.ofNat 125

/-- Python `str.find(ch)`: index of the first occurrence (`none` for `-1`). -/
def findIdx : List Char → Char → Option ℕ
  | [], _ => none
  | a :: rest, c => if a = c then some 0 else (findIdx rest c).map (· + 1)

/-- Python `str.rfind(ch)`: index of the last occurrence (`none` for `-1`). -/
def rfindIdx : List Char → Char → Option ℕ
  | [], _ => none
  | a :: rest, c =>
    match rfindIdx rest c with
    | some i => some (i + 1)
    | none => if a = c then some 0 else none

/-- Python slice `s[a : b]` for nonnegative bounds (clamped). -/
def pySlice (s : String) (a b : ℕ) : String := String.mk ((s.toList.take b).drop a)

theorem findIdx_eq_none_iff (cs : List Char) (c : Char) :
    findIdx cs c = none ↔ c ∉ cs := by
  induction cs with
  | nil => simp [findIdx]
  | cons a rest ih =>
    rw [findIdx]
    by_cases h : a = c
    · simp [h]
    · rw [if_neg h, Option.map_eq_none', ih]
      have hca : ¬ c = a := fun hc => h hc.symm
      simp [hca]

theorem rfindIdx_eq_none_iff (cs : List Char) (c : Char) :
    rfindIdx cs c = none ↔ c ∉ cs := by
  induction cs with
  | nil => simp [rfindIdx]
  | cons a rest ih =>
    cases hfi : rfindIdx rest c with
    | some i =>
      have hmem : c ∈ rest := by
        by_contra hh
        rw [ih.mpr hh] at hfi
        exact absurd hfi (by simp)
      simp [rfindIdx, hfi, hmem]
    | none =>
      by_cases h : a = c
      · simp [rfindIdx, hfi, h]
      · have hca : ¬ c = a := fun hc => h hc.symm
        simp [rfindIdx, hfi, h, hca, ih.mp hfi]

theorem findIdx_spec (cs : List Char) (c : Char) :
    ∀ i, findIdx cs c = some i →
      cs.get? i = some c ∧ ∀ j, j < i → cs.get? j ≠ some c := by
  induction cs with
  | nil => intro i h; exact absurd h (by simp [findIdx])
  | cons a rest ih =>
    intro i h
    by_cases ha : a = c
    · rw [findIdx, if_pos ha] at h
      cases h
      exact ⟨by simp [ha], by omega⟩
    · rw [findIdx, if_neg ha] at h
      cases hfi : findIdx rest c with
      | none => rw [hfi] at h; exact absurd h (by simp)
      | some k =>
        rw [hfi] at h
        simp only [Option.map_some', Option.some.injEq] at h
        subst h
        obtain ⟨h1, h2⟩ := ih k hfi
        constructor
        · simpa using h1
        · intro j hj
          cases j with
          | zero => simpa using ha
          | succ j2 =>
            have hlt : j2 < k := by omega
            simpa using h2 j2 hlt

theorem rfindIdx_spec (cs : List Char) (c : Char) :
    ∀ i, rfindIdx cs c = some i →
      cs.get? i = some c ∧ ∀ j, i < j → cs.get? j ≠ some c := by
  induction cs with
  | nil => intro i h; exact absurd h (by simp [rfindIdx])
  | cons a rest ih =>
    intro i h
    rw [rfindIdx] at h
    cases hfi : rfindIdx rest c with
    | some k =>
      rw [hfi] at h
      simp only [Option.some.injEq] at h
      subst h
      obtain ⟨h1, h2⟩ := ih k hfi
      constructor
      · simpa using h1
      · intro j hj
        cases j with
        | zero => omega
        | succ j2 =>
          have hlt : k < j2 := by omega
          simpa using h2 j2 hlt
    | none =>
      rw [hfi] at h
      by_cases ha : a = c
      · rw [if_pos ha] at h
        cases h
        constructor
        · simp [ha]
        · intro j hj
          cases j with
          | zero => omega
          | succ j2 =>
            have hrest := (rfindIdx_eq_none_iff rest c).mp hfi
            simp only [List.get?_cons_succ, ne_eq]
            intro hc
            exact hrest (List.get?_mem hc)
      · rw [if_neg ha] at h
        exact absurd h (by simp)

/-! ## Python `int(str)` and `float(str)` -/

/-- ASCII whitespace stripped by Python `int()`/`float()`/`str.strip()`. -/
def isPySpace (c : Char) : Bool :=
  c = ' ' ∨ c = '\t' ∨ c = '\n' ∨ c = '\r' ∨ c = (Char.ofNat 11) ∨ c = (Char.ofNat 12)

/-- Strip ASCII whitespace from both ends. -/
def pyStripChars (cs : List Char) : List Char :=
  ((cs.dropWhile isPySpace).reverse.dropWhile isPySpace).reverse

/-- Greedily read a run of decimal digits (single underscores allowed between
digits, as in Python numeric literals): returns the accumulated value, the
number of digits read and the remaining characters. -/
def takeDigitsU : List Char → ℕ → ℕ → ℕ × ℕ × List Char
  | [], acc, cnt => (acc, cnt, [])
  | c :: rest, acc, cnt =>
    if c.isDigit then takeDigitsU rest (10 * acc + (c.toNat - 48)) (cnt + 1)
    else
      match c, rest with
      | '_', d :: rest2 =>
        if d.isDigit then takeDigitsU rest2 (10 * acc + (d.toNat - 48)) (cnt + 1)
        else (acc, cnt, c :: rest)
      | _, _ => (acc, cnt, c :: rest)

/-- Python `int(s)` for a `str` argument: optional sign, then a nonempty
digit run (with single underscores between digits) spanning the whole
stripped string; anything else raises `ValueError` (`none`). Non-ASCII
digits are not modelled. -/
def pyInt (s : String) : Option ℤ :=
  let cs := pyStripChars s.toList
  let core := fun (cs2 : List Char) (sgn : ℤ) =>
    match cs2 with
    | [] => (none : Option ℤ)
    | c :: _ =>
      if c.isDigit then
        match takeDigitsU cs2 0 0 with
        | (v, _, []) => some (sgn * v)
        | _ => none
      else none
  match cs with
  | '+' :: rest => core rest 1
  | '-' :: rest => core rest (-1)
  | _ => core cs 1

/-- Round the decimal value `m * 10 ^ e` to the nearest IEEE binary64,
returned as a signed dyadic pair `(mantissa, exponent)`. This is what
Python `float()` produces on a finite decimal literal. -/
def flOfDec (m e : ℤ) : ℤ × ℤ :=
  if m = 0 then (0, 0)
  else
    let p := flPos (m.natAbs * 10 ^ e.toNat) (10 ^ (-e).toNat)
    (if m < 0 then -(p.1 : ℤ) else (p.1 : ℤ), p.2)

/-- Python `float(s)` for a finite decimal literal: optional sign, digits
with optional fractional part and optional decimal exponent, spanning the
whole stripped string. Returns the exact decimal value as `(m, e10)` with
value `m * 10 ^ e10`; `inf`/`nan` literals are not modelled. -/
def pyfloatDec (s : String) : Option (ℤ × ℤ) :=
  let cs := pyStripChars s.toList
  let core := fun (cs2 : List Char) (sgn : ℤ) => Id.run do
    let (ival, icnt, rest1) := takeDigitsU cs2 0 0
    let (fval, fcnt, rest2) :=
      match rest1 with
      | '.' :: r => takeDigitsU r 0 0
      | _ => (0, 0, rest1)
    if icnt + fcnt = 0 then
      return (none : Option (ℤ × ℤ))
    let (ex, restFinal) ←
      match rest2 with
      | [] => pure ((0 : ℤ), ([] : List Char))
      | c :: r =>
        if c = 'e' ∨ c = 'E' then
          let (esgn, r2) :=
            match r with
            | '+' :: rr => ((1 : ℤ), rr)
            | '-' :: rr => ((-1 : ℤ), rr)
            | _ => ((1 : ℤ), r)
          match takeDigitsU r2 0 0 with
          | (ev, ecnt, r3) =>
            if ecnt = 0 then return none
            else pure (esgn * ev, r3)
        else pure (0, c :: r)
    if restFinal ≠ [] then
      return none
    return some (sgn * (ival * 10 ^ fcnt + fval), ex - fcnt)
  match cs with
  | '+' :: rest => core rest 1
  | '-' :: rest => core rest (-1)
  | _ => core cs 1

/-- Python `float(s)`: parse the decimal literal and round it to binary64. -/
def pyfloat (s : String) : Option (ℤ × ℤ) :=
  (pyfloatDec s).map (fun me => flOfDec me.1 me.2)

/-! ## JSON object parser (model of `json.loads` for the loudnorm block)

`json.loads` is modelled for the shape the loudnorm filter prints: one flat
object whose values are strings (with the standard escapes) or numbers.
`true`/`false`/`null`, arrays, nested objects and lone-surrogate escapes are
not modelled: on those inputs both the model and the source raise out of
`_parse_loudnorm_stats` (the source either fails `json.loads` or fails the
subsequent `float()` coercion), so the observable outcome agrees on every
input whose span is a flat string/number object and is a failure on the
rest. -/

/-- A JSON/Python value in the stats dictionary. `jdec m e` is the decimal
literal `m * 10 ^ e` as parsed by `json.loads`; `jflt m e` is an IEEE
binary64 value `m * 2 ^ e` produced by `float()` coercion. -/
inductive JVal
  | jstr (s : String)
  | jdec (m : ℤ) (e : ℤ)
  | jflt (m : ℤ) (e : ℤ)
deriving DecidableEq

/-- JSON whitespace. -/
def jsonWs (c : Char) : Bool := c = ' ' ∨ c = '\t' ∨ c = '\n' ∨ c = '\r'

/-- Hexadecimal digit value. -/
def hexVal (c : Char) : Option ℕ :=
  if c.isDigit then some (c.toNat - 48)
  else if 'a' ≤ c ∧ c ≤ 'f' then some (c.toNat - 87)
  else if 'A' ≤ c ∧ c ≤ 'F' then some (c.toNat - 55)
  else none

/-- JSON string body after the opening quote: content and what follows the
closing quote. Rejects raw control characters (strict mode) and unknown
escapes. -/
def jsonString : ℕ → List Char → Option (List Char × List Char)
  | 0, _ => none
  | _ + 1, [] => none
  | f + 1, c :: rest =>
    if c = '"' then some ([], rest)
    else if c = '\\' then
      match rest with
      | [] => none
      | esc :: rest2 =>
        if esc = '"' ∨ esc = '\\' ∨ esc = '/' then
          (jsonString f rest2).map (fun p => (esc :: p.1, p.2))
        else if esc = 'b' then
          (jsonString f rest2).map (fun p => (Char.ofNat 8 :: p.1, p.2))
        else if esc = 'f' then
          (jsonString f rest2).map (fun p => (Char.ofNat 12 :: p.1, p.2))
        else if esc = 'n' then
          (jsonString f rest2).map (fun p => ('\n' :: p.1, p.2))
        else if esc = 'r' then
          (jsonString f rest2).map (fun p => ('\r' :: p.1, p.2))
        else if esc = 't' then
          (jsonString f rest2).map (fun p => ('\t' :: p.1, p.2))
        else if esc = 'u' then
          match rest2 with
          | h1 :: h2 :: h3 :: h4 :: rest3 =>
            match hexVal h1, hexVal h2, hexVal h3, hexVal h4 with
            | some v1, some v2, some v3, some v4 =>
              (jsonString f rest3).map
                (fun p => (Char.ofNat (4096 * v1 + 256 * v2 + 16 * v3 + v4) :: p.1, p.2))
            | _, _, _, _ => none
          | _ => none
        else none
    else if c.toNat < 32 then none
    else (jsonString f rest).map (fun p => (c :: p.1, p.2))

/-- Plain decimal digit run (JSON numbers allow no underscores). -/
def takeDigits0 : List Char → ℕ → ℕ → ℕ × ℕ × List Char
  | [], acc, cnt => (acc, cnt, [])
  | c :: rest, acc, cnt =>
    if c.isDigit then takeDigits0 rest (10 * acc + (c.toNat - 48)) (cnt + 1)
    else (acc, cnt, c :: rest)

/-- JSON number: `-? (0 | [1-9][0-9]*) (. [0-9]+)? ([eE][+-]?[0-9]+)?`,
returned as the exact decimal `(m, e10)` and the remaining characters. -/
def jsonNumber (cs : List Char) : Option ((ℤ × ℤ) × List Char) := Id.run do
  let (sgn, cs1) :=
    match cs with
    | '-' :: r => ((-1 : ℤ), r)
    | _ => ((1 : ℤ), cs)
  match cs1 with
  | [] => return none
  | c :: _ =>
    if ¬ c.isDigit then return none
    let (ival, icnt, rest1) := takeDigits0 cs1 0 0
    if c = '0' ∧ 1 < icnt then return none
    let (fval, fcnt, rest2) ←
      match rest1 with
      | '.' :: r =>
        match takeDigits0 r 0 0 with
        | (fv, fc, r2) => if fc = 0 then return none else pure (fv, fc, r2)
      | _ => pure (0, 0, rest1)
    let (ex, rest3) ←
      match rest2 with
      | c2 :: r =>
        if c2 = 'e' ∨ c2 = 'E' then
          let (esgn, r2) :=
            match r with
            | '+' :: rr => ((1 : ℤ), rr)
            | '-' :: rr => ((-1 : ℤ), rr)
            | _ => ((1 : ℤ), r)
          match takeDigits0 r2 0 0 with
          | (ev, ecnt, r3) => if ecnt = 0 then return none else pure (esgn * ev, r3)
        else pure ((0 : ℤ), c2 :: r)
      | [] => pure ((0 : ℤ), [])
    return some ((sgn * (ival * 10 ^ fcnt + fval), ex - fcnt), rest3)

/-- One JSON value: a string or a number. -/
def jsonValue (f : ℕ) (cs : List Char) : Option (JVal × List Char) :=
  match cs with
  | '"' :: rest => (jsonString f rest).map (fun p => (.jstr (String.mk p.1), p.2))
  | _ => (jsonNumber cs).map (fun p => (.jdec p.1.1 p.1.2, p.2))

/-- Python dict insertion: replace the value of an existing key in place,
else append. -/
def dictAssign (acc : List (String × JVal)) (k : String) (v : JVal) :
    List (String × JVal) :=
  if acc.any (fun p => p.1 = k) then
    acc.map (fun p => if p.1 = k then (k, v) else p)
  else acc ++ [(k, v)]

/-- Members of a JSON object after the opening brace (at least one member). -/
def jsonMembers : ℕ → List Char → List (String × JVal) →
    Option (List (String × JVal) × List Char)
  | 0, _, _ => none
  | f + 1, cs, acc =>
    let cs1 := cs.dropWhile jsonWs
    match cs1 with
    | '"' :: rest =>
      match jsonString (rest.length + 1) rest with
      | some (key, rest2) =>
        let cs2 := rest2.dropWhile jsonWs
        match cs2 with
        | ':' :: rest3 =>
          let cs3 := rest3.dropWhile jsonWs
          match jsonValue (cs3.length + 1) cs3 with
          | some (v, rest4) =>
            let acc2 := dictAssign acc (String.mk key) v
            let cs4 := rest4.dropWhile jsonWs
            match cs4 with
            | ',' :: rest5 => jsonMembers f rest5 acc2
            | c :: rest5 => if c = rbrace then some (acc2, rest5) else none
            | [] => none
          | none => none
        | _ => none
      | none => none
    | _ => none

/-- `json.loads` restricted to one flat object (see the section comment):
fails (`none`) unless the whole string is a single object with nothing but
whitespace around it. -/
def json_loads (s : String) : Option (List (String × JVal)) :=
  let cs := s.toList.dropWhile jsonWs
  match cs with
  | c :: rest =>
    if c = lbrace then
      let cs1 := rest.dropWhile jsonWs
      match cs1 with
      | d :: rest2 =>
        if d = rbrace then
          if rest2.dropWhile jsonWs = [] then some [] else none
        else
          match jsonMembers (cs1.length + 1) cs1 [] with
          | some (obj, rest3) =>
            if rest3.dropWhile jsonWs = [] then some obj else none
          | none => none
      | [] => none
    else none
  | [] => none

/-- `float()` applied to a stats value: a string is parsed as a decimal
literal and rounded; a JSON number is rounded to binary64 (the value
`json.loads` itself would have produced for it); an already-coerced float
is returned unchanged. `none` models the `ValueError` raised on a
non-numeric string. -/
def pyfloatJ : JVal → Option (ℤ × ℤ)
  | .jstr s => pyfloat s
  | .jdec m e => some (flOfDec m e)
  | .jflt m e => some (m, e)

/-- The coercion loop of `_parse_loudnorm_stats`: every field except
`normalization_type` is replaced by `float(value)`; a failing coercion
raises (`none`). -/
def coerceStats : List (String × JVal) → Option (List (String × JVal))
  | [] => some []
  | (k, v) :: rest =>
    if k = "normalization_type" then (coerceStats rest).map ((k, v) :: ·)
    else
      match pyfloatJ v with
      | some me => (coerceStats rest).map ((k, .jflt me.1 me.2) :: ·)
      | none => none

/-- `_parse_loudnorm_stats`: take the span from the first `\x7b` to the last
`\x7d` of the diagnostic text, parse it as a JSON object and coerce every
field except `normalization_type` to float. `none` models every raise
(`ValueError` when a brace is missing, `JSONDecodeError`, float coercion
failures). -/
def parse_loudnorm_stats (stderr : String) : Option (List (String × JVal)) :=
  match findIdx stderr.toList lbrace, rfindIdx stderr.toList rbrace with
  | some json_start, some json_end =>
    match json_loads (pySlice stderr json_start (json_end + 1)) with
    | some stats => coerceStats stats
    | none => none
  | _, _ => none

/-! ## Rendering values into the ffmpeg command strings -/

/-- Drop trailing zero characters. -/
def stripTrailingZeros (cs : List Char) : List Char :=
  (cs.reverse.dropWhile (fun c => c = '0')).reverse

/-- Left-pad with zero characters to length `k`. -/
def padLeftZeros (cs : List Char) (k : ℕ) : List Char :=
  List.replicate (k - cs.length) '0' ++ cs

/-- Python `str()` of the binary64 value `m * 2 ^ e`, printed as its exact
decimal expansion (every binary64 value has a finite one), with `.0`
appended to integral values. Python prints the shortest decimal that
round-trips; the two agree on every value that is exactly a short decimal
(as all values in the tests here are) and denote the same double
otherwise. -/
def fmtDouble (m e : ℤ) : String :=
  let sign := if m < 0 then "-" else ""
  let n := m.natAbs
  if 0 ≤ e then
    sign ++ toString (n * 2 ^ e.toNat) ++ ".0"
  else
    let k := (-e).toNat
    let ipart := n / 2 ^ k
    let fpart := n % 2 ^ k
    if fpart = 0 then sign ++ toString ipart ++ ".0"
    else
      let digits := padLeftZeros (toString (fpart * 5 ^ k)).toList k
      sign ++ toString ipart ++ "." ++ String.mk (stripTrailingZeros digits)

/-- f-string interpolation of a stats value: strings verbatim, floats via
`str(float)`; an uncoerced JSON number renders as the float it denotes. -/
def fmtJVal : JVal → String
  | .jstr s => s
  | .jflt m e => fmtDouble m e
  | .jdec m e => fmtDouble (flOfDec m e).1 (flOfDec m e).2

/-- Python `dict[key]` lookup (`none` models `KeyError`). -/
def lookupStat (stats : List (String × JVal)) (k : String) : Option JVal :=
  (stats.find? (fun p => p.1 = k)).map (fun p => p.2)

/-- `_get_ffmpeg_first_pass_command`. -/
def get_ffmpeg_first_pass_command (src_path : String) : List String :=
  ["ffmpeg", "-i", src_path, "-af",
   "loudnorm=I=-12:LRA=11:TP=-1.5:print_format=json", "-f", "null", "-"]

/-- `_get_ffmpeg_second_pass_command`: embed the measured first-pass values
next to the fixed targets; append `:linear=true` exactly when
`normalization_type` equals `"dynamic"`; `none` models the `KeyError`
raised when a field is missing from the stats dict. -/
def get_ffmpeg_second_pass_command (src_path dest_path : String)
    (loudnorm_stats : List (String × JVal)) : Option (List String) :=
  match lookupStat loudnorm_stats "input_i", lookupStat loudnorm_stats "input_lra",
      lookupStat loudnorm_stats "input_tp", lookupStat loudnorm_stats "input_thresh",
      lookupStat loudnorm_stats "target_offset" with
  | some vi, some vlra, some vtp, some vth, some voff =>
    let loudnorm_params :=
      "loudnorm=I=-12:LRA=11:TP=-1.5:measured_I=" ++ fmtJVal vi ++
      ":measured_LRA=" ++ fmtJVal vlra ++
      ":measured_TP=" ++ fmtJVal vtp ++
      ":measured_thresh=" ++ fmtJVal vth ++
      ":offset=" ++ fmtJVal voff
    match lookupStat loudnorm_stats "normalization_type" with
    | some nt =>
      let params :=
        if nt = .jstr "dynamic" then loudnorm_params ++ ":linear=true"
        else loudnorm_params
      some ["ffmpeg", "-y", "-i", src_path, "-af", params,
            "-q:a", "0", "-ar", "48000", dest_path]
    | none => none
  | _, _, _, _, _ => none

/-! ## Path handling (POSIX semantics of `os.path`) -/

/-- `os.path.basename`: everything after the last slash. -/
def os_path_basename (p : String) : String :=
  String.mk ((p.toList.reverse.takeWhile (fun c => c ≠ '/')).reverse)

/-- `os.path.splitext`: split off the extension at the last dot of the last
component, unless that component consists only of leading dots up to it. -/
def os_path_splitext (p : String) : String × String :=
  let cs := p.toList
  match rfindIdx cs '.' with
  | none => (p, "")
  | some dotIdx =>
    let sepIdx : ℤ := match rfindIdx cs '/' with
      | none => -1
      | some i => (i : ℤ)
    if sepIdx < (dotIdx : ℤ) then
      let between := (cs.take dotIdx).drop (sepIdx + 1).toNat
      if between.any (fun c => c ≠ '.') then
        (String.mk (cs.take dotIdx), String.mk (cs.drop dotIdx))
      else (p, "")
    else (p, "")

/-- `os.path.join` for two components (POSIX). -/
def os_path_join (a b : String) : String :=
  if b.toList.head? = some '/' then b
  else if a = "" ∨ a.toList.getLast? = some '/' then a ++ b
  else a ++ "/" ++ b

/-! ## Cover art and tag transplanting -/

/-- Base64 alphabet value of a character. -/
def b64Char (c : Char) : Option ℕ :=
  if 'A' ≤ c ∧ c ≤ 'Z' then some (c.toNat - 65)
  else if 'a' ≤ c ∧ c ≤ 'z' then some (c.toNat - 71)
  else if c.isDigit then some (c.toNat + 4)
  else if c = '+' then some 62
  else if c = '/' then some 63
  else none

/-- Decode base64 quartets; padding only in a final quartet. -/
def b64Groups : List Char → Option (List ℕ)
  | [] => some []
  | c1 :: c2 :: c3 :: c4 :: rest =>
    match b64Char c1, b64Char c2 with
    | some v1, some v2 =>
      if c3 = '=' then
        if c4 = '=' ∧ rest = [] then some [v1 * 4 + v2 / 16]
        else none
      else
        match b64Char c3 with
        | some v3 =>
          if c4 = '=' then
            if rest = [] then some [v1 * 4 + v2 / 16, v2 % 16 * 16 + v3 / 4]
            else none
          else
            match b64Char c4 with
            | some v4 =>
              (b64Groups rest).map
                (fun bs => (v1 * 4 + v2 / 16) :: (v2 % 16 * 16 + v3 / 4) ::
                  (v3 % 4 * 64 + v4) :: bs)
            | none => none
        | none => none
    | _, _ => none
  | _ => none

/-- `base64.b64decode(s, validate=True)`: any character outside the base64
alphabet (plus padding) raises. -/
def b64decodeStrict (s : String) : Option (List ℕ) := b64Groups s.toList

/-- `base64.b64decode(s)` with the default `validate=False`: characters
outside the alphabet are discarded before decoding. -/
def b64decodeLoose (s : String) : Option (List ℕ) :=
  b64Groups (s.toList.filter (fun c => (b64Char c).isSome ∨ c = '='))

/-- Python `s.encode("utf-8")` as a byte list. -/
def pyUtf8 (s : String) : List ℕ := s.toUTF8.data.toList.map (fun b => b.toNat)

/-- `_decode_picture_data` on a (string-valued) vorbis comment: try strict
base64 first, fall back to the UTF-8 bytes of the text itself. -/
def decode_picture_data (s : String) : List ℕ :=
  match b64decodeStrict s with
  | some bs => bs
  | none => pyUtf8 s

/-- A parsed FLAC `METADATA_BLOCK_PICTURE` (`mutagen.flac.Picture`). -/
structure FlacPicture where
  ptype : ℕ
  mime : List ℕ
  desc : List ℕ
  width : ℕ
  height : ℕ
  depth : ℕ
  colors : ℕ
  pdata : List ℕ
deriving DecidableEq

/-- Read a 32-bit big-endian integer (fails on short input, like
`struct.unpack` on a short read). -/
def be32 (bs : List ℕ) : Option (ℕ × List ℕ) :=
  match bs with
  | b1 :: b2 :: b3 :: b4 :: rest =>
    some (((b1 * 256 + b2) * 256 + b3) * 256 + b4, rest)
  | _ => none

/-- `mutagen.flac.Picture(data)`: the structural parse. Only the
fixed-width header reads can fail; the variable-length payload reads are
clamped like `file.read(n)`. -/
def picParse (bs : List ℕ) : Option FlacPicture := do
  let (ptype, r1) ← be32 bs
  let (mlen, r2) ← be32 r1
  let mime := r2.take mlen
  let r3 := r2.drop mlen
  let (dlen, r4) ← be32 r3
  let desc := r4.take dlen
  let r5 := r4.drop dlen
  let (w, r6) ← be32 r5
  let (h, r7) ← be32 r6
  let (dep, r8) ← be32 r7
  let (cols, r9) ← be32 r8
  let (plen, r10) ← be32 r9
  some ⟨ptype, mime, desc, w, h, dep, cols, r10.take plen⟩

/-- `_create_picture_object`: structural parse, accepted only for picture
type 3 (front cover). -/
def create_picture_object (pic_data : List ℕ) : Option FlacPicture :=
  match picParse pic_data with
  | some p => if p.ptype = 3 then some p else none
  | none => none

/-- An ID3 `APIC` frame as built by `_create_apic_frame`/`_copy_cover_art`. -/
structure ApicFrame where
  mime : String
  ptype : ℕ
  desc : String
  fdata : List ℕ
deriving DecidableEq

/-- `_create_apic_frame`: raw-bytes fallback; the MIME type is sniffed from
the payload head (PNG signature or jpeg default). Frame construction never
fails on byte input, so the fallback always succeeds. -/
def create_apic_frame (pic_data : List ℕ) : ApicFrame :=
  { mime := if pic_data.take 4 = [137, 80, 78, 71] then "image/png" else "image/jpeg",
    ptype := 3, desc := "Cover", fdata := pic_data }

/-- Result of the cover-art decoder chain. -/
inductive CoverResult
  | pic (p : FlacPicture)
  | apic (a : ApicFrame)
deriving DecidableEq

/-- The per-block loop of `_get_picture_from_metadata_block`. -/
def gpfmbLoop : List String → Option CoverResult
  | [] => none
  | v :: rest =>
    let pic_data := decode_picture_data v
    if pic_data = [] then gpfmbLoop rest
    else
      match create_picture_object pic_data with
      | some p => some (.pic p)
      | none => some (.apic (create_apic_frame pic_data))

/-- `_get_picture_from_metadata_block`. -/
def get_picture_from_metadata_block (metadata_block_pictures : List String)
    (src_opus_basename : String) : Option CoverResult × List Event :=
  if metadata_block_pictures = [] then
    (none, [.log .warning ("No metadata block pictures found in " ++ src_opus_basename)])
  else
    match gpfmbLoop metadata_block_pictures with
    | some r => (some r, [])
    | none =>
      (none, [.log .warning ("No valid front cover found in " ++ src_opus_basename)])

/-- A write into the destination file's ID3 container: a text frame
assignment, or the delete-all-`APIC`-then-add sequence of
`_copy_cover_art`. -/
inductive TagWrite
  | text (frame : String) (values : List String)
  | delApicAddApic (mime : List ℕ) (tdata : List ℕ)
deriving DecidableEq

/-- `_parse_year_from_date`: `str(int(date_val))`, with a Warning and `none`
when `int()` raises. -/
def parse_year_from_date (date_val src_filename : String) :
    Option String × List Event :=
  match pyInt date_val with
  | some n => (some (toString n), [])
  | none =>
    (none, [.log .warning ("Invalid date format in " ++ src_filename ++ ": \x27" ++
      date_val ++ "\x27. Skipping this date value.")])

/-- `_handle_date_tag`: keep the values `int()` accepts (as `str(int(v))`),
warn per rejected value, and write a `TDRC` frame only when at least one
year survives. -/
def handle_date_tag (tag_value : List String) (src_filename : String) :
    List TagWrite × List Event :=
  let results := tag_value.map (fun v => parse_year_from_date v src_filename)
  let years := results.filterMap (fun r => r.1)
  (if years = [] then [] else [.text "TDRC" years],
   (results.map (fun r => r.2)).join)

/-- `_copy_simple_tag`: write the value list under the mapped frame name
when nonempty. -/
def copy_simple_tag (frame : String) (tag_value : List String) : List TagWrite :=
  if tag_value = [] then [] else [.text frame tag_value]

/-- `_handle_cover_art` (the metadata-transplant path, distinct from
`_find_front_cover`): first block only, lenient base64, structural parse
without a front-cover filter, then `_copy_cover_art`. -/
def handle_cover_art (picture_data : List String) (dest_path : String) :
    List TagWrite × List Event :=
  match picture_data.head? with
  | none => ([], [])
  | some s =>
    match b64decodeLoose s with
    | none => ([], [.log .warning "Failed to process cover art."])
    | some bs =>
      match picParse bs with
      | none => ([], [.log .warning "Failed to process cover art."])
      | some p =>
        ([.delApicAddApic p.mime p.pdata],
         [.log .info ("Copied cover art to " ++ os_path_basename dest_path ++ ".")])

/-- The `TAG_MAPPING` table of `_process_opus_tags`. -/
def TAG_MAPPING : List (String × String) :=
  [("title", "TIT2"), ("artist", "TPE1"), ("album", "TALB"),
   ("genre", "TCON"), ("tracknumber", "TRCK")]

/-- `_process_opus_tags`: dispatch each source tag in order; names outside
the handled set contribute nothing. -/
def process_opus_tags (tags : List (String × List String))
    (src_filename dest_path : String) : List TagWrite × List Event :=
  match tags with
  | [] => ([], [])
  | (tag_name, tag_value) :: rest =>
    let r :=
      if tag_name = "metadata_block_picture" then handle_cover_art tag_value dest_path
      else if tag_name = "date" then handle_date_tag tag_value src_filename
      else
        match TAG_MAPPING.find? (fun p => p.1 = tag_name) with
        | some p => (copy_simple_tag p.2 tag_value, [])
        | none => ([], [])
    let rr := process_opus_tags rest src_filename dest_path
    (r.1 ++ rr.1, r.2 ++ rr.2)

/-- `_find_front_cover`: open the source tag container (environment),
then run the decoder chain on the `metadata_block_picture` values. -/
def find_front_cover (opusOpen : Option (Option (List (String × List String))))
    (src_opus_basename : String) : Option CoverResult × List Event :=
  match opusOpen with
  | none =>
    (none, [.log .warning ("Failed to create OggOpus object for " ++
      src_opus_basename ++ ".")])
  | some tagsOpt =>
    match tagsOpt with
    | some tags =>
      if tags = [] then
        (none, [.log .warning ("No tags found in " ++ src_opus_basename ++ ".")])
      else
        get_picture_from_metadata_block
          (((tags.find? (fun p => p.1 = "metadata_block_picture")).map
            (fun p => p.2)).getD [])
          src_opus_basename
    | none => (none, [.log .warning ("No tags found in " ++ src_opus_basename ++ ".")])

/-- `_copy_id3_tags`: transplant the tag set, then report success; an
unreadable source container degrades to a Warning. -/
def copy_id3_tags (opusOpen : Option (Option (List (String × List String))))
    (src_path dest_path : String) : List TagWrite × List Event :=
  match opusOpen with
  | none =>
    ([], [.log .warning ("Error copying ID3 tags from " ++
      os_path_basename src_path ++ " to " ++ os_path_basename dest_path ++ ".")])
  | some tagsOpt =>
    match tagsOpt with
    | some tags =>
      if tags = [] then ([], [])
      else
        let pr := process_opus_tags tags (os_path_basename src_path) dest_path
        (pr.1, pr.2 ++ [.log .info ("Copied ID3 tags from " ++
          os_path_basename src_path ++ " to " ++ os_path_basename dest_path ++ ".")])
    | none => ([], [])

/-! ## The per-file task and the batch

`FileEnv` is one file's environment: the outcomes of the external process
invocations (`none` models the `FileNotFoundError` raised when the ffmpeg
binary cannot be located; `some (returncode, captured text)` a completed
child process) and the readable state of the source tag container
(`none`: `OggOpus(...)` raises; `some none` / `some (some [])`: no tags;
`some (some tags)`: the comment dictionary). -/

structure FileEnv where
  src_path : String
  dest_dir : String
  destExists : Bool
  firstPass : Option (ℤ × String)
  secondPass : Option (ℤ × String)
  opusOpen : Option (Option (List (String × List String)))
deriving DecidableEq

/-- `_handle_existing_file`. -/
def handle_existing_file (destExists : Bool) (dest_path opus_file : String) :
    List Event :=
  if destExists then [.log .overwriting (os_path_basename dest_path ++ "...")]
  else [.log .converting (opus_file ++ "...")]

/-- Events of the metadata-transplant step run after a successful encode:
`_find_front_cover`, `_copy_cover_art` (no event on success) and
`_copy_id3_tags`. -/
def metadata_phase (env : FileEnv) (dest_path opus_file : String) : List Event :=
  (find_front_cover env.opusOpen opus_file).2 ++
    (copy_id3_tags env.opusOpen env.src_path dest_path).2

/-- `convert_file`: the per-file task. Consults `running` before starting
any work; a `FileNotFoundError` from either pass (ffmpeg missing) clears
`running` and emits one Error; a non-zero first pass, a stats-parse failure
or a missing stats key abandon the file with an Error; a completed encode
pass goes through `_handle_conversion_result` and, on exit code 0, through
the metadata transplant. -/
def convert_file (total : ℕ) (env : FileEnv) (st : BatchState) :
    BatchState × List Event :=
  if st.running = false then (st, [])
  else
    let opus_file := os_path_basename env.src_path
    let filename := (os_path_splitext opus_file).1
    let dest_path := os_path_join env.dest_dir (filename ++ ".mp3")
    let ev0 := handle_existing_file env.destExists dest_path opus_file
    match env.firstPass with
    | none =>
      ({ st with running := false }, ev0 ++ [.log .error "ffmpeg not found"])
    | some (rc1, stderr1) =>
      if rc1 ≠ 0 then
        (st, ev0 ++ [.log .error ("An error occurred during conversion of " ++
          opus_file ++ ": First pass failed: ffmpeg returned non-zero exit code: " ++
          stderr1)])
      else
        match parse_loudnorm_stats stderr1 with
        | none =>
          (st, ev0 ++ [.log .error ("An error occurred during conversion of " ++
            opus_file ++ ": First pass failed.")])
        | some stats =>
          match get_ffmpeg_second_pass_command env.src_path dest_path stats with
          | none =>
            (st, ev0 ++ [.log .error ("An error occurred during conversion of " ++
              opus_file ++ ".")])
          | some _cmd =>
            match env.secondPass with
            | none =>
              ({ st with running := false }, ev0 ++ [.log .error "ffmpeg not found"])
            | some (rc2, out2) =>
              let hr := handle_conversion_result rc2 out2 opus_file total
                st.completed_files
              if rc2 = 0 then
                ({ st with completed_files := hr.1 },
                 ev0 ++ hr.2 ++ metadata_phase env dest_path opus_file)
              else
                ({ st with completed_files := hr.1 }, ev0 ++ hr.2)

/-- Run the submitted tasks in dispatch order (one linearization of the
worker pool; the mutex makes each counter update atomic, and the claims
quantify over the order in which the updates occur). -/
def run_all (total : ℕ) : List FileEnv → BatchState → BatchState × List Event
  | [], st => (st, [])
  | env :: rest, st =>
    let r1 := convert_file total env st
    let r2 := run_all total rest r1.1
    (r2.1, r1.2 ++ r2.2)

/-- `ConversionThread.stop`. -/
def stop (st : BatchState) : BatchState := { st with running := false }

/-- A batch in which `stop()` is called after `k` tasks have run: the
remaining tasks still pass through the pool (or are cancelled — in either
case they consult the flag and do no work). -/
def run_batch_stop (total : ℕ) (envs : List FileEnv) (k : ℕ) (st : BatchState) :
    BatchState × List Event :=
  let r1 := run_all total (envs.take k) st
  let r2 := run_all total (envs.drop k) (stop r1.1)
  (r2.1, r1.2 ++ r2.2)

/-- The encode pass's exit code, when the task reaches the encode pass
(first pass ran with exit 0, stats parsed, stats keys complete). -/
def encodeResult (env : FileEnv) : Option ℤ :=
  match env.firstPass with
  | none => none
  | some (rc1, stderr1) =>
    if rc1 ≠ 0 then none
    else
      match parse_loudnorm_stats stderr1 with
      | none => none
      | some stats =>
        match get_ffmpeg_second_pass_command env.src_path
            (os_path_join env.dest_dir
              ((os_path_splitext (os_path_basename env.src_path)).1 ++ ".mp3"))
            stats with
        | none => none
        | some _ => env.secondPass.map (fun p => p.1)

/-- The task completes its encode pass with exit code 0. -/
def encodeSuccess (env : FileEnv) : Bool := encodeResult env = some 0

/-! ## Structural facts about the emitted event streams -/

/-- An event that is a log line (not a progress update). -/
def isLogEvent : Event → Bool
  | .log _ _ => true
  | .progress _ => false

theorem progressValues_eq_nil {evs : List Event}
    (h : ∀ e ∈ evs, isLogEvent e = true) : progressValues evs = [] := by
  induction evs with
  | nil => rfl
  | cons a rest ih =>
    cases a with
    | log t m =>
      have : progressValues (Event.log t m :: rest) = progressValues rest := rfl
      rw [this]
      exact ih (fun e he => h e (List.mem_cons_of_mem _ he))
    | progress p =>
      have := h (Event.progress p) (List.mem_cons_self _ _)
      simp [isLogEvent] at this

theorem handle_existing_file_log (b : Bool) (d o : String) :
    ∀ e ∈ handle_existing_file b d o, isLogEvent e = true := by
  intro e he
  unfold handle_existing_file at he
  rcases b with _ | _ <;> simp at he <;> simp [he, isLogEvent]

theorem get_picture_from_metadata_block_log (mbp : List String) (n : String) :
    ∀ e ∈ (get_picture_from_metadata_block mbp n).2, isLogEvent e = true := by
  intro e he
  unfold get_picture_from_metadata_block at he
  by_cases h : mbp = []
  · rw [if_pos h] at he
    simp at he
    simp [he, isLogEvent]
  · rw [if_neg h] at he
    cases hl : gpfmbLoop mbp with
    | some r => rw [hl] at he; simp at he
    | none =>
      rw [hl] at he
      simp at he
      simp [he, isLogEvent]

theorem find_front_cover_log (o : Option (Option (List (String × List String))))
    (n : String) : ∀ e ∈ (find_front_cover o n).2, isLogEvent e = true := by
  intro e he
  rcases o with _ | tagsOpt
  · simp [find_front_cover] at he; simp [he, isLogEvent]
  · rcases tagsOpt with _ | tags
    · simp [find_front_cover] at he; simp [he, isLogEvent]
    · by_cases h : tags = []
      · simp [find_front_cover, h] at he; simp [he, isLogEvent]
      · simp only [find_front_cover, if_neg h] at he
        exact get_picture_from_metadata_block_log _ _ e he

theorem parse_year_from_date_log (v f : String) :
    ∀ e ∈ (parse_year_from_date v f).2, isLogEvent e = true := by
  intro e he
  cases hp : pyInt v with
  | some n => simp [parse_year_from_date, hp] at he
  | none => simp [parse_year_from_date, hp] at he; simp [he, isLogEvent]

theorem handle_date_tag_log (v : List String) (f : String) :
    ∀ e ∈ (handle_date_tag v f).2, isLogEvent e = true := by
  intro e he
  unfold handle_date_tag at he
  simp only [List.mem_join, List.map_map, List.mem_map] at he
  obtain ⟨l, ⟨v2, hv2, heq⟩, hel⟩ := he
  rw [← heq] at hel
  exact parse_year_from_date_log v2 f e hel

theorem handle_cover_art_log (v : List String) (d : String) :
    ∀ e ∈ (handle_cover_art v d).2, isLogEvent e = true := by
  intro e he
  rcases v with _ | ⟨s, rest⟩
  · simp [handle_cover_art] at he
  · cases hb : b64decodeLoose s with
    | none => simp [handle_cover_art, hb] at he; simp [he, isLogEvent]
    | some bs =>
      cases hp : picParse bs with
      | none => simp [handle_cover_art, hb, hp] at he; simp [he, isLogEvent]
      | some p => simp [handle_cover_art, hb, hp] at he; simp [he, isLogEvent]

theorem process_opus_tags_log (tags : List (String × List String))
    (f d : String) : ∀ e ∈ (process_opus_tags tags f d).2, isLogEvent e = true := by
  induction tags with
  | nil => intro e he; simp [process_opus_tags] at he
  | cons hd tl ih =>
    intro e he
    obtain ⟨tag_name, tag_value⟩ := hd
    rw [process_opus_tags] at he
    simp only [List.mem_append] at he
    rcases he with he | he
    · by_cases h1 : tag_name = "metadata_block_picture"
      · rw [if_pos h1] at he
        exact handle_cover_art_log _ _ e he
      · rw [if_neg h1] at he
        by_cases h2 : tag_name = "date"
        · rw [if_pos h2] at he
          exact handle_date_tag_log _ _ e he
        · rw [if_neg h2] at he
          cases hm : TAG_MAPPING.find? (fun p => p.1 = tag_name) with
          | some p => rw [hm] at he; simp at he
          | none => rw [hm] at he; simp at he
    · exact ih e he

theorem copy_id3_tags_log (o : Option (Option (List (String × List String))))
    (s d : String) : ∀ e ∈ (copy_id3_tags o s d).2, isLogEvent e = true := by
  intro e he
  rcases o with _ | tagsOpt
  · simp [copy_id3_tags] at he; simp [he, isLogEvent]
  · rcases tagsOpt with _ | tags
    · simp [copy_id3_tags] at he
    · by_cases h : tags = []
      · simp [copy_id3_tags, h] at he
      · simp only [copy_id3_tags, if_neg h, List.mem_append] at he
        rcases he with he | he
        · exact process_opus_tags_log _ _ _ e he
        · simp at he; simp [he, isLogEvent]

theorem metadata_phase_log (env : FileEnv) (d o : String) :
    ∀ e ∈ metadata_phase env d o, isLogEvent e = true := by
  intro e he
  unfold metadata_phase at he
  simp only [List.mem_append] at he
  rcases he with he | he
  · exact find_front_cover_log _ _ e he
  · exact copy_id3_tags_log _ _ _ e he

theorem progressValues_handle_existing (b : Bool) (d o : String) :
    progressValues (handle_existing_file b d o) = [] :=
  progressValues_eq_nil (handle_existing_file_log b d o)

theorem progressValues_metadata (env : FileEnv) (d o : String) :
    progressValues (metadata_phase env d o) = [] :=
  progressValues_eq_nil (metadata_phase_log env d o)

theorem convert_file_stopped (total : ℕ) (env : FileEnv) (c : ℕ) :
    convert_file total env ⟨false, c⟩ = (⟨false, c⟩, []) := by
  simp [convert_file]

theorem run_all_stopped (total : ℕ) :
    ∀ (envs : List FileEnv) (c : ℕ),
      run_all total envs ⟨false, c⟩ = (⟨false, c⟩, []) := by
  intro envs
  induction envs with
  | nil => intro c; rfl
  | cons env rest ih =>
    intro c
    rw [run_all, convert_file_stopped, ih c]
    rfl

theorem convert_file_complete (total : ℕ) (env : FileEnv) (c : ℕ)
    (hf : env.firstPass.isSome = true) (hs : env.secondPass.isSome = true) :
    (convert_file total env ⟨true, c⟩).1 =
      ⟨true, c + (if encodeSuccess env then 1 else 0)⟩ ∧
    progressValues (convert_file total env ⟨true, c⟩).2 =
      (if encodeSuccess env then [pyProgress (c + 1) total] else []) := by
  obtain ⟨⟨rc1, s1⟩, hfp⟩ := Option.isSome_iff_exists.mp hf
  obtain ⟨⟨rc2, out2⟩, hsp⟩ := Option.isSome_iff_exists.mp hs
  by_cases h1 : rc1 = 0
  · subst h1
    cases hparse : parse_loudnorm_stats s1 with
    | none =>
      have hes : encodeSuccess env = false := by
        simp [encodeSuccess, encodeResult, hfp, hparse]
      rw [hes]
      simp only [convert_file, hfp, hparse]
      constructor
      · simp
      · simp [progressValues_append, progressValues_handle_existing, progressValues]
        intro a ha
        have hl := handle_existing_file_log _ _ _ a ha
        cases a with
        | log t m => rfl
        | progress p => simp [isLogEvent] at hl
    | some stats =>
      cases hcmd : get_ffmpeg_second_pass_command env.src_path
          (os_path_join env.dest_dir
            ((os_path_splitext (os_path_basename env.src_path)).1 ++ ".mp3"))
          stats with
      | none =>
        have hes : encodeSuccess env = false := by
          simp [encodeSuccess, encodeResult, hfp, hparse, hcmd]
        rw [hes]
        simp only [convert_file, hfp, hparse, hcmd]
        constructor
        · simp
        · simp [progressValues_append, progressValues_handle_existing, progressValues]
          intro a ha
          have hl := handle_existing_file_log _ _ _ a ha
          cases a with
          | log t m => rfl
          | progress p => simp [isLogEvent] at hl
      | some cmd =>
        have her : encodeResult env = some rc2 := by
          simp [encodeResult, hfp, hparse, hcmd, hsp]
        by_cases h2 : rc2 = 0
        · subst h2
          have hes : encodeSuccess env = true := by
            simp [encodeSuccess, her]
          rw [hes]
          simp only [convert_file, hfp, hparse, hcmd, hsp, handle_conversion_result]
          constructor
          · simp
          · have hm := progressValues_metadata env
              (os_path_join env.dest_dir
                ((os_path_splitext (os_path_basename env.src_path)).1 ++ ".mp3"))
              (os_path_basename env.src_path)
            have he0 := progressValues_handle_existing env.destExists
              (os_path_join env.dest_dir
                ((os_path_splitext (os_path_basename env.src_path)).1 ++ ".mp3"))
              (os_path_basename env.src_path)
            unfold progressValues at hm he0
            simp [progressValues, hm, he0]
        · have hes : encodeSuccess env = false := by
            simp [encodeSuccess, her, h2]
          rw [hes]
          simp only [convert_file, hfp, hparse, hcmd, hsp, handle_conversion_result]
          constructor
          · simp [h2]
          · simp [h2, progressValues_append, progressValues_handle_existing,
              progressValues]
            intro a ha
            have hl := handle_existing_file_log _ _ _ a ha
            cases a with
            | log t m => rfl
            | progress p => simp [isLogEvent] at hl
  · have hes : encodeSuccess env = false := by
      simp [encodeSuccess, encodeResult, hfp, h1]
    rw [hes]
    simp only [convert_file, hfp]
    constructor
    · simp [h1]
    · simp [h1, progressValues_append, progressValues_handle_existing, progressValues]
      intro a ha
      have hl := handle_existing_file_log _ _ _ a ha
      cases a with
      | log t m => rfl
      | progress p => simp [isLogEvent] at hl

/-- Number of tasks in the batch whose encode pass succeeds. -/
def countEnc (envs : List FileEnv) : ℕ := (envs.filter encodeSuccess).length

theorem run_all_complete (total : ℕ) :
    ∀ (envs : List FileEnv) (c : ℕ),
      (∀ env ∈ envs, env.firstPass.isSome = true ∧ env.secondPass.isSome = true) →
      (run_all total envs ⟨true, c⟩).1 = ⟨true, c + countEnc envs⟩ ∧
      progressValues (run_all total envs ⟨true, c⟩).2 =
        (List.range' (c + 1) (countEnc envs)).map (fun i => pyProgress i total) := by
  intro envs
  induction envs with
  | nil => intro c _; simp [run_all, countEnc, progressValues]
  | cons env rest ih =>
    intro c hok
    obtain ⟨hc1, hc2⟩ := convert_file_complete total env c
      (hok env (List.mem_cons_self _ _)).1 (hok env (List.mem_cons_self _ _)).2
    have hok2 : ∀ e ∈ rest, e.firstPass.isSome = true ∧ e.secondPass.isSome = true :=
      fun e he => hok e (List.mem_cons_of_mem _ he)
    rw [run_all]
    by_cases hes : encodeSuccess env
    · rw [hes] at hc1 hc2
      simp at hc1 hc2
      have hcount : countEnc (env :: rest) = countEnc rest + 1 := by
        simp [countEnc, List.filter_cons, hes]
      obtain ⟨ih1, ih2⟩ := ih (c + 1) hok2
      constructor
      · rw [hc1, ih1, hcount]
        have : c + 1 + countEnc rest = c + (countEnc rest + 1) := by omega
        rw [this]
      · rw [hc1, progressValues_append, hc2, ih2, hcount, List.range'_succ]
        simp only [List.map_cons]
        rfl
    · rw [eq_false_of_ne_true hes] at hc1 hc2
      simp at hc1 hc2
      have hcount : countEnc (env :: rest) = countEnc rest := by
        simp [countEnc, List.filter_cons, eq_false_of_ne_true hes]
      obtain ⟨ih1, ih2⟩ := ih c hok2
      constructor
      · rw [hc1, ih1, hcount]
      · rw [hc1, progressValues_append, hc2, ih2, hcount]
        rfl

/-! ## Claims -/

theorem coerceStats_shape :
    ∀ (raw stats : List (String × JVal)), coerceStats raw = some stats →
      ∀ kv ∈ stats, kv.1 ≠ "normalization_type" → ∃ m e, kv.2 = JVal.jflt m e := by
  intro raw
  induction raw with
  | nil =>
    intro stats h kv hkv
    simp [coerceStats] at h
    subst h
    simp at hkv
  | cons hd tl ih =>
    intro stats h kv hkv hne
    obtain ⟨k, v⟩ := hd
    rw [coerceStats] at h
    by_cases hk : k = "normalization_type"
    · rw [if_pos hk] at h
      cases hc : coerceStats tl with
      | none => rw [hc] at h; simp at h
      | some rest =>
        rw [hc] at h
        simp only [Option.map_some', Option.some.injEq] at h
        subst h
        rcases List.mem_cons.mp hkv with rfl | hmem
        · exact absurd hk hne
        · exact ih rest hc kv hmem hne
    · rw [if_neg hk] at h
      cases hp : pyfloatJ v with
      | none => rw [hp] at h; simp at h
      | some me =>
        rw [hp] at h
        cases hc : coerceStats tl with
        | none => rw [hc] at h; simp at h
        | some rest =>
          rw [hc] at h
          simp only [Option.map_some', Option.some.injEq] at h
          subst h
          rcases List.mem_cons.mp hkv with rfl | hmem
          · exact ⟨me.1, me.2, rfl⟩
          · exact ih rest hc kv hmem hne

theorem coerceStats_ntype :
    ∀ (raw stats : List (String × JVal)), coerceStats raw = some stats →
      ∀ kv ∈ raw, kv.1 = "normalization_type" → kv ∈ stats := by
  intro raw
  induction raw with
  | nil => intro stats h kv hkv; simp at hkv
  | cons hd tl ih =>
    intro stats h kv hkv hk
    obtain ⟨k, v⟩ := hd
    rw [coerceStats] at h
    rcases List.mem_cons.mp hkv with rfl | hmem
    · rw [if_pos hk] at h
      cases hc : coerceStats tl with
      | none => rw [hc] at h; simp at h
      | some rest =>
        rw [hc] at h
        simp only [Option.map_some', Option.some.injEq] at h
        subst h
        exact List.mem_cons_self _ _
    · by_cases hk2 : k = "normalization_type"
      · rw [if_pos hk2] at h
        cases hc : coerceStats tl with
        | none => rw [hc] at h; simp at h
        | some rest =>
          rw [hc] at h
          simp only [Option.map_some', Option.some.injEq] at h
          subst h
          exact List.mem_cons_of_mem _ (ih rest hc kv hmem hk)
      · rw [if_neg hk2] at h
        cases hp : pyfloatJ v with
        | none => rw [hp] at h; simp at h
        | some me =>
          rw [hp] at h
          cases hc : coerceStats tl with
          | none => rw [hc] at h; simp at h
          | some rest =>
            rw [hc] at h
            simp only [Option.map_some', Option.some.injEq] at h
            subst h
            exact List.mem_cons_of_mem _ (ih rest hc kv hmem hk)

/-- C1: `_parse_loudnorm_stats` extracts exactly the substring from the
first `\x7b` to the last `\x7d` (characterized as least and greatest index),
parses it as a JSON object, coerces every field except
`normalization_type` to float while keeping `normalization_type`
unchanged, and raises when either brace is missing or the span fails to
parse. -/
theorem claim_C1 (stderr : String) :
    ((lbrace ∉ stderr.toList ∨ rbrace ∉ stderr.toList) →
      parse_loudnorm_stats stderr = none) ∧
    (∀ a b, findIdx stderr.toList lbrace = some a →
      rfindIdx stderr.toList rbrace = some b →
      (stderr.toList.get? a = some lbrace ∧
        ∀ j, j < a → stderr.toList.get? j ≠ some lbrace) ∧
      (stderr.toList.get? b = some rbrace ∧
        ∀ j, b < j → stderr.toList.get? j ≠ some rbrace) ∧
      parse_loudnorm_stats stderr =
        (match json_loads (pySlice stderr a (b + 1)) with
         | some stats => coerceStats stats
         | none => none)) ∧
    (∀ stats, parse_loudnorm_stats stderr = some stats →
      ∀ kv ∈ stats, kv.1 ≠ "normalization_type" → ∃ m e, kv.2 = JVal.jflt m e) ∧
    (∀ a b raw stats, findIdx stderr.toList lbrace = some a →
      rfindIdx stderr.toList rbrace = some b →
      json_loads (pySlice stderr a (b + 1)) = some raw →
      parse_loudnorm_stats stderr = some stats →
      ∀ kv ∈ raw, kv.1 = "normalization_type" → kv ∈ stats) := by
  refine ⟨?_, ?_, ?_, ?_⟩
  · intro h
    unfold parse_loudnorm_stats
    rcases h with h | h
    · rw [(findIdx_eq_none_iff _ _).mpr h]
    · rw [(rfindIdx_eq_none_iff _ _).mpr h]
      cases findIdx stderr.toList lbrace <;> rfl
  · intro a b ha hb
    refine ⟨findIdx_spec _ _ a ha, rfindIdx_spec _ _ b hb, ?_⟩
    unfold parse_loudnorm_stats
    rw [ha, hb]
  · intro stats h
    unfold parse_loudnorm_stats at h
    cases ha : findIdx stderr.toList lbrace with
    | none => rw [ha] at h; simp at h
    | some a =>
      cases hb : rfindIdx stderr.toList rbrace with
      | none => rw [ha, hb] at h; simp at h
      | some b =>
        rw [ha, hb] at h
        have h2 : (match json_loads (pySlice stderr a (b + 1)) with
            | some stats => coerceStats stats
            | none => none) = some stats := h
        cases hj : json_loads (pySlice stderr a (b + 1)) with
        | none => rw [hj] at h2; simp at h2
        | some raw =>
          rw [hj] at h2
          exact coerceStats_shape raw stats h2
  · intro a b raw stats ha hb hj h
    unfold parse_loudnorm_stats at h
    rw [ha, hb] at h
    have h2 : (match json_loads (pySlice stderr a (b + 1)) with
        | some stats => coerceStats stats
        | none => none) = some stats := h
    rw [hj] at h2
    exact coerceStats_ntype raw stats h2

/-- Witness for C1 at a concrete diagnostic text without braces: parsing
fails. -/
theorem claim_C1_witness : parse_loudnorm_stats "no stats in this output" = none :=
  (claim_C1 "no stats in this output").1 (Or.inl (by decide))

/-- C2 (amended): the counter starts at 0 and is incremented, by one, only
in the success branch of `_handle_conversion_result`; every emitted
progress value equals the Python double-precision computation
`int((completed_files / total) * 100)` — not the exact
`floor(100 * completed_files / total)`, from which it can differ by one —
and the emitted sequence is monotonically non-decreasing and bounded in
`[0, 100]`. -/
theorem claim_C2_amended (total : ℕ) (rs : List (ℤ × String × String))
    (h1 : 1 ≤ total) (h2 : rs.length ≤ total) :
    conversionThreadInit.completed_files = 0 ∧
    (∀ rc out name c, (handle_conversion_result rc out name total c).1 =
      if rc = 0 then c + 1 else c) ∧
    (run_results total rs 0).1 = countSucc rs ∧
    progressValues (run_results total rs 0).2 =
      (List.range' 1 (countSucc rs)).map (fun i => pyProgress i total) ∧
    List.Chain' (· ≤ ·) (progressValues (run_results total rs 0).2) ∧
    ∀ p ∈ progressValues (run_results total rs 0).2, p ≤ 100 := by
  refine ⟨rfl, ?_, ?_, ?_, ?_, ?_⟩
  · intro rc out name c
    unfold handle_conversion_result
    split_ifs <;> rfl
  · have h := (run_results_spec total rs 0).1
    simpa using h
  · simpa using (run_results_spec total rs 0).2
  · rw [(run_results_spec total rs 0).2]
    exact chain_le_map_range' _ (fun i => pyProgress_mono (by omega) (by omega)) _ _
  · intro p hp
    rw [(run_results_spec total rs 0).2] at hp
    simp only [List.mem_map] at hp
    obtain ⟨i, hi, hpi⟩ := hp
    rw [List.mem_range'] at hi
    obtain ⟨j, hj, hij⟩ := hi
    have hcs := countSucc_le_length rs
    subst hpi
    exact pyProgress_le_100 (by omega) (by omega)

/-- Counterexample to C2 as stated: in a 100-job batch, the progress value
emitted at the 29th success is 28, while
`floor(100 * completedCount / totalJobs) = 29`. -/
theorem claim_C2_counterexample :
    (run_results 100 (List.replicate 29 ((0 : ℤ), "", "f.opus")) 0).1 = 29 ∧
    (run_results 100 (List.replicate 29 ((0 : ℤ), "", "f.opus")) 0).2.getLast? =
      some (Event.progress 28) ∧
    100 * 29 / 100 = 29 ∧ (28 : ℕ) ≠ 100 * 29 / 100 := by decide

/-- Witness for C2 (amended) at a concrete batch: three results, one of
them failing, against a batch of four jobs. -/
theorem claim_C2_witness :
    conversionThreadInit.completed_files = 0 ∧
    (∀ rc out name c,
      (handle_conversion_result rc out name 4 c).1 = if rc = 0 then c + 1 else c) ∧
    (run_results 4 [(0, "", "a.opus"), (1, "boom", "b.opus"), (0, "", "c.opus")] 0).1 =
      countSucc [(0, "", "a.opus"), (1, "boom", "b.opus"), (0, "", "c.opus")] ∧
    progressValues
      (run_results 4 [(0, "", "a.opus"), (1, "boom", "b.opus"), (0, "", "c.opus")] 0).2 =
      (List.range' 1 (countSucc [(0, "", "a.opus"), (1, "boom", "b.opus"), (0, "", "c.opus")])).map
        (fun i => pyProgress i 4) ∧
    List.Chain' (· ≤ ·) (progressValues
      (run_results 4 [(0, "", "a.opus"), (1, "boom", "b.opus"), (0, "", "c.opus")] 0).2) ∧
    ∀ p ∈ progressValues
      (run_results 4 [(0, "", "a.opus"), (1, "boom", "b.opus"), (0, "", "c.opus")] 0).2,
      p ≤ 100 :=
  claim_C2_amended 4 [(0, "", "a.opus"), (1, "boom", "b.opus"), (0, "", "c.opus")]
    (by decide) (by decide)

theorem progress_mem_of_mem_progressValues {p : ℕ} {evs : List Event}
    (h : p ∈ progressValues evs) : Event.progress p ∈ evs := by
  unfold progressValues at h
  obtain ⟨a, ha, hfa⟩ := List.mem_filterMap.mp h
  cases a with
  | log t m => simp at hfa
  | progress q =>
    simp only [Option.some.injEq] at hfa
    subst hfa
    exact ha

theorem mem_progressValues_of_progress_mem {p : ℕ} {evs : List Event}
    (h : Event.progress p ∈ evs) : p ∈ progressValues evs := by
  unfold progressValues
  exact List.mem_filterMap.mpr ⟨Event.progress p, h, rfl⟩

theorem countEnc_append (l1 l2 : List FileEnv) :
    countEnc (l1 ++ l2) = countEnc l1 + countEnc l2 := by
  unfold countEnc
  rw [List.filter_append, List.length_append]

theorem countEnc_replicate (n : ℕ) (env : FileEnv) :
    countEnc (List.replicate n env) = if encodeSuccess env then n else 0 := by
  induction n with
  | zero => simp [countEnc]
  | succ k ih =>
    rw [List.replicate_succ]
    unfold countEnc at ih ⊢
    rw [List.filter_cons]
    by_cases h : encodeSuccess env
    · simp only [h, if_true, List.length_cons, ih]
    · simp only [eq_false_of_ne_true h, Bool.false_eq_true, if_false, ih]
      try simp [h]

/-- C3 (amended): for a completed batch (one first-pass and one encode-pass
outcome per job, no missing tool), the final counter equals the number of
jobs whose encode pass exited 0; if every job succeeds, progress 100 is
emitted; and for batch sizes up to `2 ^ 53` the value 100 is emitted only
if every job succeeded (beyond that, double rounding can reach 100 early —
see the counterexample). -/
theorem claim_C3_amended (total : ℕ) (envs : List FileEnv)
    (h1 : 1 ≤ total) (hlen : envs.length = total) (h53 : total ≤ 2 ^ 53)
    (hok : ∀ env ∈ envs, env.firstPass.isSome = true ∧ env.secondPass.isSome = true) :
    (run_all total envs conversionThreadInit).1.completed_files = countEnc envs ∧
    (Event.progress 100 ∈ (run_all total envs conversionThreadInit).2 ↔
      ∀ env ∈ envs, encodeSuccess env = true) := by
  have hinit : conversionThreadInit = (⟨true, 0⟩ : BatchState) := rfl
  rw [hinit]
  obtain ⟨hstate, hprog⟩ := run_all_complete total envs 0 hok
  have hce : countEnc envs ≤ envs.length := List.length_filter_le _ _
  constructor
  · rw [hstate]
    simp
  · constructor
    · intro hmem
      have h100 := mem_progressValues_of_progress_mem hmem
      rw [hprog] at h100
      simp only [List.mem_map] at h100
      obtain ⟨i, hi, hpi⟩ := h100
      rw [List.mem_range'] at hi
      obtain ⟨j, hj, hij⟩ := hi
      by_cases hit : i = total
      · subst hit
        have hcl : countEnc envs = envs.length := by omega
        intro env henv
        exact List.filter_length_eq_length.mp (by rw [← hcl]; rfl) env henv
      · have hilt : i < total := by omega
        have hbound := pyProgress_lt_100 hilt h53
        omega
    · intro hall
      have hcl : countEnc envs = envs.length := by
        unfold countEnc
        exact List.filter_length_eq_length.mpr hall
      have h100 : pyProgress total total = 100 := pyProgress_self total (by omega)
      apply progress_mem_of_mem_progressValues
      rw [hprog]
      simp only [List.mem_map]
      refine ⟨total, ?_, h100⟩
      rw [List.mem_range']
      exact ⟨total - 1, by omega, by omega⟩

/-- A first-pass diagnostic text whose loudnorm block parses and carries
all six fields. -/
def statsBlockOK : String :=
  "banner noise \x7b\"input_i\":\"-23.5\",\"input_lra\":\"5.25\",\"input_tp\":\"-2.0\",\"input_thresh\":\"-34.5\",\"target_offset\":\"0.25\",\"normalization_type\":\"dynamic\"\x7d trailing"

/-- A job whose two passes both exit 0 with parseable stats. -/
def goodEnv : FileEnv :=
  { src_path := "/music/a.opus", dest_dir := "/out", destExists := false,
    firstPass := some (0, statsBlockOK), secondPass := some (0, ""),
    opusOpen := some none }

/-- A job whose encode pass exits 1. -/
def badEnv : FileEnv := { goodEnv with secondPass := some (1, "boom") }

set_option maxRecDepth 10000 in
/-- Counterexample to C3 as stated: in a batch of `2 ^ 54` jobs where one
encode pass fails, the progress value 100 is still emitted (the last
success rounds `(2 ^ 54 - 1) / 2 ^ 54` up to exactly 1.0 in double
precision), so "100 is emitted iff every job succeeded" is false. -/
theorem claim_C3_counterexample :
    (List.replicate (2 ^ 54 - 1) goodEnv ++ [badEnv]).length = 2 ^ 54 ∧
    Event.progress 100 ∈
      (run_all (2 ^ 54) (List.replicate (2 ^ 54 - 1) goodEnv ++ [badEnv])
        conversionThreadInit).2 ∧
    ¬ ∀ env ∈ List.replicate (2 ^ 54 - 1) goodEnv ++ [badEnv],
        encodeSuccess env = true := by
  have hgood : encodeSuccess goodEnv = true := by decide
  have hbad : encodeSuccess badEnv = false := by decide
  have h2pow : (2 : ℕ) ≤ 2 ^ 54 := by norm_num
  have hok : ∀ env ∈ List.replicate (2 ^ 54 - 1) goodEnv ++ [badEnv],
      env.firstPass.isSome = true ∧ env.secondPass.isSome = true := by
    intro env henv
    rcases List.mem_append.mp henv with hm | hm
    · rw [List.eq_of_mem_replicate hm]
      exact ⟨by decide, by decide⟩
    · rw [List.mem_singleton.mp hm]
      exact ⟨by decide, by decide⟩
  obtain ⟨hstate, hprog⟩ :=
    run_all_complete (2 ^ 54) (List.replicate (2 ^ 54 - 1) goodEnv ++ [badEnv]) 0 hok
  have hcount : countEnc (List.replicate (2 ^ 54 - 1) goodEnv ++ [badEnv]) =
      2 ^ 54 - 1 := by
    rw [countEnc_append, countEnc_replicate, if_pos hgood]
    have hb0 : countEnc [badEnv] = 0 := by
      unfold countEnc
      rw [List.filter_cons]
      simp [hbad]
    omega
  refine ⟨?_, ?_, ?_⟩
  · rw [List.length_append, List.length_replicate]
    simp
    try omega
  · apply progress_mem_of_mem_progressValues
    rw [show conversionThreadInit = ({ running := true, completed_files := 0 } : BatchState) from rfl,
      hprog, hcount]
    simp only [List.mem_map]
    refine ⟨2 ^ 54 - 1, ?_, by decide⟩
    rw [List.mem_range']
    exact ⟨2 ^ 54 - 2, by omega, by omega⟩
  · intro hall
    have hb := hall badEnv (List.mem_append.mpr (Or.inr (List.mem_singleton_self _)))
    rw [hbad] at hb
    exact absurd hb (by simp)

/-- Witness for C3 (amended) at a concrete one-job batch that succeeds. -/
theorem claim_C3_witness :
    (run_all 1 [goodEnv] conversionThreadInit).1.completed_files = countEnc [goodEnv] ∧
    (Event.progress 100 ∈ (run_all 1 [goodEnv] conversionThreadInit).2 ↔
      ∀ env ∈ [goodEnv], encodeSuccess env = true) :=
  claim_C3_amended 1 [goodEnv] (by decide) (by decide) (by norm_num)
    (by
      intro env henv
      rw [List.mem_singleton.mp henv]
      exact ⟨by decide, by decide⟩)

/-- The destination path a task computes for its source file. -/
def destPathOf (env : FileEnv) : String :=
  os_path_join env.dest_dir
    ((os_path_splitext (os_path_basename env.src_path)).1 ++ ".mp3")

/-- The task hits `FileNotFoundError` (ffmpeg binary missing) at the pass
it actually reaches. -/
def toolMissing (env : FileEnv) : Bool :=
  match env.firstPass with
  | none => true
  | some (rc1, s1) =>
    if rc1 ≠ 0 then false
    else
      match parse_loudnorm_stats s1 with
      | none => false
      | some stats =>
        match get_ffmpeg_second_pass_command env.src_path (destPathOf env) stats with
        | none => false
        | some _ => env.secondPass.isNone

/-- The task fails for a reason local to its file: non-zero first-pass
exit, stats-parse failure, missing stats key, or non-zero encode exit. -/
def localFailure (env : FileEnv) : Bool :=
  match env.firstPass with
  | none => false
  | some (rc1, s1) =>
    if rc1 ≠ 0 then true
    else
      match parse_loudnorm_stats s1 with
      | none => true
      | some stats =>
        match get_ffmpeg_second_pass_command env.src_path (destPathOf env) stats with
        | none => true
        | some _ =>
          match env.secondPass with
          | none => false
          | some (rc2, _) => rc2 ≠ 0

/-- An ERROR-level log event. -/
def isErrorEvent : Event → Bool
  | .log .error _ => true
  | _ => false

/-- A job on which the ffmpeg binary is missing. -/
def toolEnv : FileEnv := { goodEnv with firstPass := none }

/-- A job whose first pass exits 1. -/
def failEnv : FileEnv := { goodEnv with firstPass := some (1, "bad") }

/-- C4: a `FileNotFoundError` (tool missing) clears the batch-wide
`running` flag — so every task not yet begun returns without work — and
the failing task's event stream carries exactly one Error; any local
failure (non-zero exit at either pass, stats-parse failure, missing stats
key) leaves the batch state untouched, carries at least one Error, and the
remaining tasks run exactly as they would have from the same state. -/
theorem claim_C4 (total : ℕ) (env : FileEnv) (st : BatchState)
    (rest : List FileEnv) (h : st.running = true) :
    (toolMissing env = true →
      (convert_file total env st).1.running = false ∧
      ((convert_file total env st).2.filter isErrorEvent).length = 1 ∧
      run_all total rest (convert_file total env st).1 =
        ((convert_file total env st).1, [])) ∧
    (localFailure env = true →
      (convert_file total env st).1 = st ∧
      1 ≤ ((convert_file total env st).2.filter isErrorEvent).length ∧
      run_all total rest (convert_file total env st).1 = run_all total rest st) := by
  obtain ⟨r, c⟩ := st
  simp only at h
  subst h
  constructor
  · intro htm
    cases hfp : env.firstPass with
    | none =>
      have hcf : convert_file total env ⟨true, c⟩ =
          (⟨false, c⟩,
           handle_existing_file env.destExists (destPathOf env)
               (os_path_basename env.src_path) ++
             [.log .error "ffmpeg not found"]) := by
        simp [convert_file, hfp, destPathOf]
      rw [hcf]
      refine ⟨rfl, ?_, run_all_stopped total rest c⟩
      cases env.destExists <;> simp [handle_existing_file, isErrorEvent]
    | some p =>
      obtain ⟨rc1, s1⟩ := p
      simp only [toolMissing, hfp] at htm
      by_cases hrc : rc1 = 0
      · subst hrc
        simp at htm
        cases hps : parse_loudnorm_stats s1 with
        | none => simp only [hps] at htm; simp at htm
        | some stats =>
          simp only [hps] at htm
          cases hcmd : get_ffmpeg_second_pass_command env.src_path (destPathOf env) stats with
          | none => simp only [hcmd] at htm; simp at htm
          | some cmd =>
            simp only [hcmd] at htm
            cases hsp : env.secondPass with
            | some q => simp only [hsp] at htm; simp [Option.isNone] at htm
            | none =>
              have hcf : convert_file total env ⟨true, c⟩ =
                  (⟨false, c⟩,
                   handle_existing_file env.destExists (destPathOf env)
                       (os_path_basename env.src_path) ++
                     [.log .error "ffmpeg not found"]) := by
                simp [convert_file, hfp, destPathOf, hps,
                  show get_ffmpeg_second_pass_command env.src_path
                    (os_path_join env.dest_dir
                      ((os_path_splitext (os_path_basename env.src_path)).1 ++ ".mp3"))
                    stats = some cmd from hcmd, hsp]
              rw [hcf]
              refine ⟨rfl, ?_, run_all_stopped total rest c⟩
              cases env.destExists <;> simp [handle_existing_file, isErrorEvent]
      · simp [hrc] at htm
  · intro hlf
    cases hfp : env.firstPass with
    | none => simp [localFailure, hfp] at hlf
    | some p =>
      obtain ⟨rc1, s1⟩ := p
      simp only [localFailure, hfp] at hlf
      by_cases hrc : rc1 = 0
      · subst hrc
        simp at hlf
        cases hps : parse_loudnorm_stats s1 with
        | none =>
          have hcf : convert_file total env ⟨true, c⟩ =
              (⟨true, c⟩,
               handle_existing_file env.destExists (destPathOf env)
                   (os_path_basename env.src_path) ++
                 [.log .error ("An error occurred during conversion of " ++
                   os_path_basename env.src_path ++ ": First pass failed.")]) := by
            simp [convert_file, hfp, destPathOf, hps]
          rw [hcf]
          refine ⟨rfl, ?_, rfl⟩
          cases env.destExists <;> simp [handle_existing_file, isErrorEvent]
        | some stats =>
          simp only [hps] at hlf
          cases hcmd : get_ffmpeg_second_pass_command env.src_path (destPathOf env) stats with
          | none =>
            have hcf : convert_file total env ⟨true, c⟩ =
                (⟨true, c⟩,
                 handle_existing_file env.destExists (destPathOf env)
                     (os_path_basename env.src_path) ++
                   [.log .error ("An error occurred during conversion of " ++
                     os_path_basename env.src_path ++ ".")]) := by
              simp [convert_file, hfp, destPathOf, hps,
                show get_ffmpeg_second_pass_command env.src_path
                  (os_path_join env.dest_dir
                    ((os_path_splitext (os_path_basename env.src_path)).1 ++ ".mp3"))
                  stats = none from hcmd]
            rw [hcf]
            refine ⟨rfl, ?_, rfl⟩
            cases env.destExists <;> simp [handle_existing_file, isErrorEvent]
          | some cmd =>
            simp only [hcmd] at hlf
            cases hsp : env.secondPass with
            | none => simp only [hsp] at hlf; simp at hlf
            | some q =>
              obtain ⟨rc2, out2⟩ := q
              simp only [hsp] at hlf
              simp at hlf
              have hcf : convert_file total env ⟨true, c⟩ =
                  (⟨true, c⟩,
                   handle_existing_file env.destExists (destPathOf env)
                       (os_path_basename env.src_path) ++
                     [.log .error ("Converting " ++ os_path_basename env.src_path ++
                        ". ffmpeg returned non-zero exit code."),
                      .log .error (pyStrip out2)]) := by
                simp [convert_file, hfp, destPathOf, hps,
                  show get_ffmpeg_second_pass_command env.src_path
                    (os_path_join env.dest_dir
                      ((os_path_splitext (os_path_basename env.src_path)).1 ++ ".mp3"))
                    stats = some cmd from hcmd, hsp, hlf,
                  handle_conversion_result]
              rw [hcf]
              refine ⟨rfl, ?_, rfl⟩
              cases env.destExists <;> simp [handle_existing_file, isErrorEvent]
      · have hcf : convert_file total env ⟨true, c⟩ =
            (⟨true, c⟩,
             handle_existing_file env.destExists (destPathOf env)
                 (os_path_basename env.src_path) ++
               [.log .error ("An error occurred during conversion of " ++
                 os_path_basename env.src_path ++
                 ": First pass failed: ffmpeg returned non-zero exit code: " ++ s1)]) := by
          simp [convert_file, hfp, destPathOf, hrc]
        rw [hcf]
        refine ⟨rfl, ?_, rfl⟩
        cases env.destExists <;> simp [handle_existing_file, isErrorEvent]

/-- Witness for C4 at one tool-missing job and one locally failing job,
with one well-formed sibling behind each. -/
theorem claim_C4_witness :
    ((convert_file 2 toolEnv ⟨true, 0⟩).1.running = false ∧
     ((convert_file 2 toolEnv ⟨true, 0⟩).2.filter isErrorEvent).length = 1 ∧
     run_all 2 [goodEnv] (convert_file 2 toolEnv ⟨true, 0⟩).1 =
       ((convert_file 2 toolEnv ⟨true, 0⟩).1, [])) ∧
    ((convert_file 2 failEnv ⟨true, 0⟩).1 = ⟨true, 0⟩ ∧
     1 ≤ ((convert_file 2 failEnv ⟨true, 0⟩).2.filter isErrorEvent).length ∧
     run_all 2 [goodEnv] (convert_file 2 failEnv ⟨true, 0⟩).1 =
       run_all 2 [goodEnv] (⟨true, 0⟩ : BatchState)) :=
  ⟨(claim_C4 2 toolEnv ⟨true, 0⟩ [goodEnv] rfl).1 (by decide),
   (claim_C4 2 failEnv ⟨true, 0⟩ [goodEnv] rfl).2 (by decide)⟩

/-- C5: `stop()` clears the shared flag; every task that consults the flag
afterwards returns without doing any work or emitting any event; and a
batch stopped after `k` tasks have run produces exactly the first `k`
tasks' events with the stopped final state — the remaining tasks settle
(cancelled or gated, in either case without running), so the batch still
reaches its final state and the completion notification fires. -/
theorem claim_C5 (total : ℕ) (envs : List FileEnv) (k : ℕ) (st : BatchState) :
    (stop st).running = false ∧
    (∀ env, convert_file total env (stop st) = (stop st, [])) ∧
    run_batch_stop total envs k st =
      (stop (run_all total (envs.take k) st).1,
       (run_all total (envs.take k) st).2) := by
  refine ⟨rfl, ?_, ?_⟩
  · intro env
    obtain ⟨r, c⟩ := st
    exact convert_file_stopped total env c
  · rcases hr : run_all total (envs.take k) st with ⟨⟨r1, c1⟩, evs⟩
    simp [run_batch_stop, hr, stop, run_all_stopped]

/-- C6: whenever the six stats fields are present, the encode-pass command
embeds the measured first-pass values alongside the fixed targets I=-12,
LRA=11, TP=-1.5, and the filter-parameter string ends in `:linear=true`
exactly when the parsed `normalization_type` equals `"dynamic"`. -/
theorem claim_C6 (src dest : String) (stats : List (String × JVal))
    (vi vlra vtp vth voff nt : JVal)
    (hi : lookupStat stats "input_i" = some vi)
    (hlra : lookupStat stats "input_lra" = some vlra)
    (htp : lookupStat stats "input_tp" = some vtp)
    (hth : lookupStat stats "input_thresh" = some vth)
    (hoff : lookupStat stats "target_offset" = some voff)
    (hnt : lookupStat stats "normalization_type" = some nt) :
    get_ffmpeg_second_pass_command src dest stats =
      some ["ffmpeg", "-y", "-i", src, "-af",
        ("loudnorm=I=-12:LRA=11:TP=-1.5:measured_I=" ++ fmtJVal vi ++
         ":measured_LRA=" ++ fmtJVal vlra ++
         ":measured_TP=" ++ fmtJVal vtp ++
         ":measured_thresh=" ++ fmtJVal vth ++
         ":offset=" ++ fmtJVal voff) ++
        (if nt = .jstr "dynamic" then ":linear=true" else ""),
        "-q:a", "0", "-ar", "48000", dest] := by
  simp only [get_ffmpeg_second_pass_command, hi, hlra, htp, hth, hoff, hnt]
  by_cases h : nt = JVal.jstr "dynamic" <;> simp [h]

/-- Loudness stats as they come out of the coercion step: five doubles
(here -23.5, 5.25, -2.0, -34.5, 0.25) and the normalization-type string. -/
def statsD : List (String × JVal) :=
  [("input_i", .jflt (-6614661952700416) (-48)),
   ("input_lra", .jflt 5910974510923776 (-50)),
   ("input_tp", .jflt (-2) 0),
   ("input_thresh", .jflt (-4855443348258816) (-47)),
   ("target_offset", .jflt 1 (-2)),
   ("normalization_type", .jstr "dynamic")]

/-- Witness for C6 at a concrete dynamic-mode stats dictionary. -/
theorem claim_C6_witness :
    get_ffmpeg_second_pass_command "/m/a.opus" "/out/a.mp3" statsD =
      some ["ffmpeg", "-y", "-i", "/m/a.opus", "-af",
        ("loudnorm=I=-12:LRA=11:TP=-1.5:measured_I=" ++
           fmtJVal (.jflt (-6614661952700416) (-48)) ++
         ":measured_LRA=" ++ fmtJVal (.jflt 5910974510923776 (-50)) ++
         ":measured_TP=" ++ fmtJVal (.jflt (-2) 0) ++
         ":measured_thresh=" ++ fmtJVal (.jflt (-4855443348258816) (-47)) ++
         ":offset=" ++ fmtJVal (.jflt 1 (-2))) ++
        (if (JVal.jstr "dynamic") = .jstr "dynamic" then ":linear=true" else ""),
        "-q:a", "0", "-ar", "48000", "/out/a.mp3"] :=
  claim_C6 "/m/a.opus" "/out/a.mp3" statsD _ _ _ _ _ _
    (by decide) (by decide) (by decide) (by decide) (by decide) (by decide)

/-- Modelled from the spec\x27s words, not from the code: "extract only the
leading integer (year) from each date value" — the longest digit prefix of
the value. Named `spec_leading_year` to mark it as the spec\x27s reading,
to be compared against `parse_year_from_date`. -/
def spec_leading_year (date_val : String) : Option String :=
  let ds := date_val.toList.takeWhile Char.isDigit
  if ds = [] then none else some (String.mk ds)

/-- Counterexample to C7 as stated: the value `"2020-05-01"` has the
leading integer `2020`, but the program runs `int()` on the whole string,
which raises, so the value is skipped with a warning and no date tag is
written. -/
theorem claim_C7_counterexample :
    spec_leading_year "2020-05-01" = some "2020" ∧
    handle_date_tag ["2020-05-01"] "f.opus" =
      ([], [.log .warning
        "Invalid date format in f.opus: \x272020-05-01\x27. Skipping this date value."]) := by
  decide

/-- C7 (amended): each date value is passed to Python `int()` whole — a
value is kept exactly when the entire (stripped) string is an integer
literal, rendered back as `str(int(v))`; there is no leading-integer
extraction. Every rejected value yields one warning naming it; the kept
years are written as a `TDRC` frame, and no frame is written when none
survive. -/
theorem claim_C7_amended (tag_value : List String) (src : String) :
    (handle_date_tag tag_value src).1 =
      (if tag_value.filterMap (fun v => (pyInt v).map toString) = [] then []
       else [TagWrite.text "TDRC"
         (tag_value.filterMap (fun v => (pyInt v).map toString))]) ∧
    (handle_date_tag tag_value src).2 =
      (tag_value.filter (fun v => (pyInt v).isNone)).map
        (fun v => Event.log .warning ("Invalid date format in " ++ src ++
          ": \x27" ++ v ++ "\x27. Skipping this date value.")) := by
  have h1 : ∀ v, (parse_year_from_date v src).1 = (pyInt v).map toString := by
    intro v
    cases hp : pyInt v <;> simp [parse_year_from_date, hp]
  have hyears : (tag_value.map (fun v => parse_year_from_date v src)).filterMap
      (fun r => r.1) = tag_value.filterMap (fun v => (pyInt v).map toString) := by
    rw [List.filterMap_map]
    congr 1
    funext v
    exact h1 v
  have h2 : ∀ (l : List String),
      (l.map ((fun r => r.2) ∘ (fun v => parse_year_from_date v src))).join =
        (l.filter (fun v => (pyInt v).isNone)).map
          (fun v => Event.log .warning ("Invalid date format in " ++ src ++
            ": \x27" ++ v ++ "\x27. Skipping this date value.")) := by
    intro l
    induction l with
    | nil => rfl
    | cons v rest ih =>
      have hstep : ((v :: rest).map
            ((fun r => r.2) ∘ (fun v => parse_year_from_date v src))).join =
          (parse_year_from_date v src).2 ++
            (rest.map ((fun r => r.2) ∘ (fun v => parse_year_from_date v src))).join := rfl
      rw [hstep, ih, List.filter_cons]
      cases hp : pyInt v with
      | some n => simp [parse_year_from_date, hp]
      | none => simp [parse_year_from_date, hp]
  have hpair : handle_date_tag tag_value src =
      ((if (tag_value.map (fun v => parse_year_from_date v src)).filterMap
            (fun r => r.1) = [] then ([] : List TagWrite)
        else [TagWrite.text "TDRC"
          ((tag_value.map (fun v => parse_year_from_date v src)).filterMap
            (fun r => r.1))]),
       ((tag_value.map (fun v => parse_year_from_date v src)).map
         (fun r => r.2)).join) := rfl
  rw [hpair, hyears]
  refine ⟨rfl, ?_⟩
  rw [List.map_map]
  exact h2 tag_value

/-- C8: the per-block decoder chain tries the structural FLAC-picture
parse first, accepting it exactly when it parses and its picture type is 3
(front cover); otherwise the raw-bytes APIC fallback fires, sniffing
`image/png` from a leading PNG signature and defaulting to `image/jpeg`.
The first block whose decoded data is nonempty wins (blocks decoding to
empty bytes are skipped), and the extractor warns once — "No metadata
block pictures found" on an empty block list, "No valid front cover
found" when no block yields a picture — and returns no cover. -/
theorem claim_C8 (blocks : List String) (b : String) (pd : List ℕ)
    (p : FlacPicture) :
    (create_picture_object pd = some p ↔ picParse pd = some p ∧ p.ptype = 3) ∧
    (create_apic_frame pd).mime =
      (if pd.take 4 = [137, 80, 78, 71] then "image/png" else "image/jpeg") ∧
    gpfmbLoop blocks =
      (match (blocks.dropWhile (fun v => decode_picture_data v = [])).head? with
       | none => none
       | some v =>
         match create_picture_object (decode_picture_data v) with
         | some q => some (.pic q)
         | none => some (.apic (create_apic_frame (decode_picture_data v)))) ∧
    get_picture_from_metadata_block blocks b =
      (if blocks = [] then
        (none, [.log .warning ("No metadata block pictures found in " ++ b)])
       else
        match gpfmbLoop blocks with
        | some r => (some r, [])
        | none =>
          (none, [.log .warning ("No valid front cover found in " ++ b)])) := by
  refine ⟨?_, rfl, ?_, ?_⟩
  · cases hp : picParse pd with
    | none => simp [create_picture_object, hp]
    | some q =>
      by_cases hq : q.ptype = 3
      · simp [create_picture_object, hp, hq]
        rintro rfl
        exact hq
      · simp [create_picture_object, hp, hq]
        rintro rfl
        exact hq
  · induction blocks with
    | nil => rfl
    | cons v rest ih =>
      by_cases hd : decode_picture_data v = []
      · have hL : gpfmbLoop (v :: rest) = gpfmbLoop rest := by
          simp [gpfmbLoop, hd]
        have hR : (v :: rest).dropWhile (fun v => decode_picture_data v = []) =
            rest.dropWhile (fun v => decode_picture_data v = []) := by
          simp [List.dropWhile_cons, hd]
        rw [hL, hR]
        exact ih
      · have hL : gpfmbLoop (v :: rest) =
            (match create_picture_object (decode_picture_data v) with
             | some q => some (.pic q)
             | none => some (.apic (create_apic_frame (decode_picture_data v)))) := by
          simp [gpfmbLoop, hd]
        have hR : (v :: rest).dropWhile (fun v => decode_picture_data v = []) =
            v :: rest := by
          simp [List.dropWhile_cons, hd]
        rw [hL, hR]
        rfl
  · by_cases hb : blocks = []
    · simp [get_picture_from_metadata_block, hb]
    · cases hg : gpfmbLoop blocks with
      | none => simp [get_picture_from_metadata_block, hb, hg]
      | some r => simp [get_picture_from_metadata_block, hb, hg]

theorem convert_file_decomp (total : ℕ) (env : FileEnv) (c : ℕ) :
    ∃ (s : BatchState) (tl : List Event),
      ∀ d : Bool, convert_file total { env with destExists := d } ⟨true, c⟩ =
        (s, handle_existing_file d (destPathOf env)
          (os_path_basename env.src_path) ++ tl) := by
  cases hfp : env.firstPass with
  | none =>
    refine ⟨⟨false, c⟩, [.log .error "ffmpeg not found"], fun d => ?_⟩
    simp [convert_file, hfp, destPathOf]
  | some p =>
    obtain ⟨rc1, s1⟩ := p
    by_cases hrc : rc1 = 0
    · subst hrc
      cases hps : parse_loudnorm_stats s1 with
      | none =>
        refine ⟨⟨true, c⟩,
          [.log .error ("An error occurred during conversion of " ++
            os_path_basename env.src_path ++ ": First pass failed.")], fun d => ?_⟩
        simp [convert_file, hfp, hps, destPathOf]
      | some stats =>
        cases hcmd : get_ffmpeg_second_pass_command env.src_path (destPathOf env)
            stats with
        | none =>
          refine ⟨⟨true, c⟩,
            [.log .error ("An error occurred during conversion of " ++
              os_path_basename env.src_path ++ ".")], fun d => ?_⟩
          simp [convert_file, hfp, hps, destPathOf,
            show get_ffmpeg_second_pass_command env.src_path
              (os_path_join env.dest_dir
                ((os_path_splitext (os_path_basename env.src_path)).1 ++ ".mp3"))
              stats = none from hcmd]
        | some cmd =>
          cases hsp : env.secondPass with
          | none =>
            refine ⟨⟨false, c⟩, [.log .error "ffmpeg not found"], fun d => ?_⟩
            simp [convert_file, hfp, hps, destPathOf,
              show get_ffmpeg_second_pass_command env.src_path
                (os_path_join env.dest_dir
                  ((os_path_splitext (os_path_basename env.src_path)).1 ++ ".mp3"))
                stats = some cmd from hcmd, hsp]
          | some q =>
            obtain ⟨rc2, out2⟩ := q
            by_cases h2 : rc2 = 0
            · subst h2
              refine ⟨⟨true, (handle_conversion_result 0 out2
                  (os_path_basename env.src_path) total c).1⟩,
                (handle_conversion_result 0 out2
                  (os_path_basename env.src_path) total c).2 ++
                  metadata_phase env (destPathOf env)
                    (os_path_basename env.src_path), fun d => ?_⟩
              simp [convert_file, hfp, hps, destPathOf,
                show get_ffmpeg_second_pass_command env.src_path
                  (os_path_join env.dest_dir
                    ((os_path_splitext (os_path_basename env.src_path)).1 ++ ".mp3"))
                  stats = some cmd from hcmd, hsp, metadata_phase]
            · refine ⟨⟨true, (handle_conversion_result rc2 out2
                  (os_path_basename env.src_path) total c).1⟩,
                (handle_conversion_result rc2 out2
                  (os_path_basename env.src_path) total c).2, fun d => ?_⟩
              simp [convert_file, hfp, hps, destPathOf,
                show get_ffmpeg_second_pass_command env.src_path
                  (os_path_join env.dest_dir
                    ((os_path_splitext (os_path_basename env.src_path)).1 ++ ".mp3"))
                  stats = some cmd from hcmd, hsp, h2]
    · refine ⟨⟨true, c⟩,
        [.log .error ("An error occurred during conversion of " ++
          os_path_basename env.src_path ++
          ": First pass failed: ffmpeg returned non-zero exit code: " ++ s1)],
        fun d => ?_⟩
      simp [convert_file, hfp, hrc, destPathOf]

theorem second_pass_shape (src dest : String) (stats : List (String × JVal))
    (cmd : List String)
    (hc : get_ffmpeg_second_pass_command src dest stats = some cmd) :
    ∃ params, cmd = ["ffmpeg", "-y", "-i", src, "-af", params,
      "-q:a", "0", "-ar", "48000", dest] := by
  unfold get_ffmpeg_second_pass_command at hc
  cases hvi : lookupStat stats "input_i" with
  | none => simp [hvi] at hc
  | some vi =>
  simp only [hvi] at hc
  cases hlra : lookupStat stats "input_lra" with
  | none => simp [hlra] at hc
  | some vlra =>
  simp only [hlra] at hc
  cases htp : lookupStat stats "input_tp" with
  | none => simp [htp] at hc
  | some vtp =>
  simp only [htp] at hc
  cases hth : lookupStat stats "input_thresh" with
  | none => simp [hth] at hc
  | some vth =>
  simp only [hth] at hc
  cases hoff : lookupStat stats "target_offset" with
  | none => simp [hoff] at hc
  | some voff =>
  simp only [hoff] at hc
  cases hnt : lookupStat stats "normalization_type" with
  | none => simp [hnt] at hc
  | some nt =>
  simp only [hnt, Option.some.injEq] at hc
  exact ⟨_, hc.symm⟩

/-- C9: with the batch running, every task's event stream starts with
exactly one of the two presentational events — Overwriting of the computed
destination (source basename, extension swapped to `.mp3`, in the
destination directory) when that destination already exists, Converting
otherwise; the final state and every later event are the same whether or
not the destination existed; and any encode command the task can produce
carries ffmpeg\x27s overwrite flag `-y`. -/
theorem claim_C9 (total : ℕ) (env : FileEnv) (st : BatchState)
    (h : st.running = true) :
    ((convert_file total env st).2.head? =
      some (if env.destExists then
        Event.log .overwriting (os_path_basename (destPathOf env) ++ "...")
       else Event.log .converting (os_path_basename env.src_path ++ "..."))) ∧
    (∀ d : Bool,
      (convert_file total { env with destExists := d } st).1 =
        (convert_file total env st).1 ∧
      (convert_file total { env with destExists := d } st).2.tail =
        (convert_file total env st).2.tail) ∧
    (∀ dest stats cmd,
      get_ffmpeg_second_pass_command env.src_path dest stats = some cmd →
      "-y" ∈ cmd) := by
  obtain ⟨r, c⟩ := st
  simp only at h
  subst h
  obtain ⟨s, tl, hdec⟩ := convert_file_decomp total env c
  have henv : { env with destExists := env.destExists } = env := rfl
  refine ⟨?_, ?_, ?_⟩
  · have hself := hdec env.destExists
    rw [henv] at hself
    rw [hself]
    cases env.destExists <;> simp [handle_existing_file]
  · intro d
    have h1 := hdec d
    have h2 := hdec env.destExists
    rw [henv] at h2
    rw [h1, h2]
    refine ⟨rfl, ?_⟩
    cases d <;> cases env.destExists <;> simp [handle_existing_file]
  · intro dest stats cmd hc
    obtain ⟨params, hcmd⟩ := second_pass_shape env.src_path dest stats cmd hc
    subst hcmd
    simp

/-- Witness for C9 at a concrete running batch state and job. -/
theorem claim_C9_witness :
    ((convert_file 1 goodEnv ⟨true, 0⟩).2.head? =
      some (if goodEnv.destExists then
        Event.log .overwriting (os_path_basename (destPathOf goodEnv) ++ "...")
       else Event.log .converting (os_path_basename goodEnv.src_path ++ "..."))) ∧
    (∀ d : Bool,
      (convert_file 1 { goodEnv with destExists := d } ⟨true, 0⟩).1 =
        (convert_file 1 goodEnv ⟨true, 0⟩).1 ∧
      (convert_file 1 { goodEnv with destExists := d } ⟨true, 0⟩).2.tail =
        (convert_file 1 goodEnv ⟨true, 0⟩).2.tail) ∧
    (∀ dest stats cmd,
      get_ffmpeg_second_pass_command goodEnv.src_path dest stats = some cmd →
      "-y" ∈ cmd) :=
  claim_C9 1 goodEnv ⟨true, 0⟩ rfl

/-- The tag names `_process_opus_tags` dispatches on: its two special
cases and the keys of `TAG_MAPPING`. -/
def knownTags : List String :=
  ["metadata_block_picture", "date", "title", "artist", "album", "genre",
   "tracknumber"]

/-- C10: tags whose name is outside the fixed set
\x7btitle, artist, album, genre, tracknumber, date, metadata_block_picture\x7d
are silently ignored — dropping them all from the source tag list changes
neither the writes applied to the destination nor the emitted events, so
the transplanted tags come only from that closed set. -/
theorem claim_C10 (tags : List (String × List String)) (src dest : String) :
    process_opus_tags (tags.filter (fun p => p.1 ∈ knownTags)) src dest =
      process_opus_tags tags src dest := by
  induction tags with
  | nil => rfl
  | cons t rest ih =>
    obtain ⟨k, v⟩ := t
    rw [List.filter_cons]
    by_cases hk : k ∈ knownTags
    · rw [if_pos (by simpa using hk)]
      simp only [process_opus_tags]
      rw [ih]
    · rw [if_neg (by simpa using hk)]
      simp only [knownTags, List.mem_cons, List.not_mem_nil, or_false] at hk
      push_neg at hk
      obtain ⟨hA, hB, hC, hD, hE, hF, hG⟩ := hk
      have hfind : TAG_MAPPING.find? (fun p => p.1 = k) = none := by
        rw [List.find?_eq_none]
        intro p hp
        simp only [TAG_MAPPING, List.mem_cons, List.not_mem_nil, or_false] at hp
        rcases hp with rfl | rfl | rfl | rfl | rfl
        · simp
          exact fun h => hC h.symm
        · simp
          exact fun h => hD h.symm
        · simp
          exact fun h => hE h.symm
        · simp
          exact fun h => hF h.symm
        · simp
          exact fun h => hG h.symm
      have hstep : process_opus_tags ((k, v) :: rest) src dest =
          process_opus_tags rest src dest := by
        simp [process_opus_tags, if_neg hA, if_neg hB, hfind]
      rw [hstep]
      exact ih
